import Mathlib

/-!
# Verification of the xtcjs page-container codec and conversion pipeline

Shallow embedding, in Lean 4, of the core of the `xtcjs` repository:

* the XTG single-page 1-bit bitmap encoder (`imageDataToXtg` in
  `src/lib/xtc-format.ts`),
* the XTC multi-page container builder and parser (`buildXtc`,
  `buildXtcFromRawPages` in `src/lib/xtc-format.ts`; `parseXtcFile` in
  `src/lib/xtc-reader.ts`),
* the page-mapping / TOC remapping logic (`page-mapping.ts`),
* the overlap segmentation and contrast stretch in `processing/image.ts`,
* the dithering engine (`processing/dithering.ts`),
* the page-range parser of the split module.

Byte buffers (`ArrayBuffer` / `Uint8Array` / `DataView`) are modelled as
`List Nat`, with each multi-byte field written and read little-endian;
`setUintN` truncation is reflected by storing `n % 256` per byte.
JavaScript floating-point values appearing in the image algorithms are
modelled as exact rationals (`ℚ`).
-/

namespace Xtcjs

/-! ## Little-endian byte serialization helpers -/

/-- `leBytes k n` is the `k`-byte little-endian encoding of `n` (as written by
the `setUint16`/`setUint32`/`setBigUint64` calls in `xtc-format.ts`; values
that do not fit in `k` bytes are truncated, as in JavaScript). -/
def leBytes : Nat → Nat → List Nat
  | 0, _ => []
  | k + 1, n => n % 256 :: leBytes k (n / 256)

/-- `lePack bs` reads a little-endian byte list back into a number (as done
by `getUint16`/`getUint32`/`getBigUint64` in `xtc-reader.ts`). -/
def lePack : List Nat → Nat
  | [] => 0
  | b :: bs => b + 256 * lePack bs

/-- `readLE buf off k` reads the `k`-byte little-endian field at byte offset
`off` of buffer `buf`. -/
def readLE (buf : List Nat) (off k : Nat) : Nat :=
  lePack ((buf.drop off).take k)

theorem length_leBytes (k n : Nat) : (leBytes k n).length = k := by
  induction k generalizing n with
  | zero => rfl
  | succ m ih => simp [leBytes, ih]

theorem lePack_leBytes (k n : Nat) : lePack (leBytes k n) = n % 256 ^ k := by
  induction k generalizing n with
  | zero => simp [leBytes, lePack, Nat.mod_one]
  | succ m ih =>
    simp only [leBytes, lePack, ih]
    rw [pow_succ', Nat.mod_mul]

theorem readLE_append (A rest : List Nat) (j k : Nat) :
    readLE (A ++ rest) (A.length + j) k = readLE rest j k := by
  simp [readLE, List.drop_append]

theorem readLE_append_leBytes (A B : List Nat) (k n : Nat) :
    readLE (A ++ leBytes k n ++ B) A.length k = n % 256 ^ k := by
  have h := readLE_append A (leBytes k n ++ B) 0 k
  simp only [Nat.add_zero] at h
  rw [List.append_assoc, h]
  unfold readLE
  rw [List.drop_zero, List.take_append_of_le_length (by simp [length_leBytes]),
    List.take_of_length_le (by simp [length_leBytes])]
  exact lePack_leBytes k n

theorem slice_append (C blob D : List Nat) :
    ((C ++ blob ++ D).drop C.length).take blob.length = blob := by
  have h : (C ++ (blob ++ D)).drop (C.length + 0) = (blob ++ D).drop 0 :=
    List.drop_append 0
  simp only [Nat.add_zero, List.drop_zero] at h
  rw [List.append_assoc, h, List.take_append_of_le_length (le_refl _),
    List.take_of_length_le (le_refl _)]

/-! ## Pointwise state update helpers (array stores) -/

/-- Store `v` at index `i` of the byte map `s` (an `Uint8Array` store). -/
def updNat (s : Nat → Nat) (i v : Nat) : Nat → Nat :=
  fun j => if j = i then v else s j

/-- Store `v` at index `i` of the rational map `s` (a `Float32Array` store). -/
def updQ (s : Nat → ℚ) (i : Nat) (v : ℚ) : Nat → ℚ :=
  fun j => if j = i then v else s j

/-- Add `q` to index `i` of the rational map `s` (`pixels[i] += q`). -/
def addAt (s : Nat → ℚ) (i : Nat) (q : ℚ) : Nat → ℚ :=
  updQ s i (s i + q)

/-! ## XTG single-page bitmap encoder (`imageDataToXtg`, `src/lib/xtc-format.ts`)

An `ImageData` is modelled by its width, height and a function
`data : Nat → Nat` giving the RGBA byte at each index (pixel `(x, y)`
occupies indices `4*(y*w+x) .. 4*(y*w+x)+3`). -/

/-- Device page width (`TARGET_WIDTH` in `processing/canvas.ts`). -/
def TARGET_WIDTH : Nat := 480

/-- Device page height (`TARGET_HEIGHT` in `processing/canvas.ts`). -/
def TARGET_HEIGHT : Nat := 800

/-- `rowBytes = Math.ceil(w / 8)`. -/
def xtgRowBytes (w : Nat) : Nat := (w + 7) / 8

/-- One iteration of the packing loop body of `imageDataToXtg`: if the red
channel of pixel `(x, y)` is at least 128 the bit `7 - x % 8` of byte
`y * rowBytes + x / 8` is ORed into the packed-pixel byte map `s`. -/
def xtgSetPixel (w : Nat) (data : Nat → Nat) (y x : Nat) (s : Nat → Nat) :
    Nat → Nat :=
  if 128 ≤ data (4 * (y * w + x)) then
    let byteIndex := y * xtgRowBytes w + x / 8
    let bitIndex := 7 - x % 8
    updNat s byteIndex (s byteIndex ||| (1 <<< bitIndex))
  else s

/-- The packed-pixel byte map produced by the double loop of
`imageDataToXtg`, starting from the zero-initialized `Uint8Array`. -/
def xtgPackMap (w h : Nat) (data : Nat → Nat) : Nat → Nat :=
  (List.range h).foldl
    (fun s y => (List.range w).foldl (fun s x => xtgSetPixel w data y x s) s)
    (fun _ => 0)

/-- The packed pixel data of `imageDataToXtg` as a byte list of length
`rowBytes * h`. -/
def xtgPixelBytes (w h : Nat) (data : Nat → Nat) : List Nat :=
  (List.range (xtgRowBytes w * h)).map (xtgPackMap w h data)

/-- The 8-byte digest field: the first up to 8 bytes of the packed bitmap,
zero-padded (the zero-initialized `md5digest` array is only filled for
`i < min 8 pixelData.length`, and `getD _ 0` returns 0 there too). -/
def xtgDigest (pixelData : List Nat) : List Nat :=
  (List.range 8).map (fun i => pixelData.getD i 0)

/-- `imageDataToXtg`: 22-byte header (magic `XTG\0`, uint16 width, uint16
height, 2 reserved bytes, uint32 pixel-data length, 8-byte digest) followed
by the packed bitmap. -/
def imageDataToXtg (w h : Nat) (data : Nat → Nat) : List Nat :=
  let pixelData := xtgPixelBytes w h data
  [0x58, 0x54, 0x47, 0x00] ++ leBytes 2 w ++ leBytes 2 h ++ [0, 0] ++
    leBytes 4 pixelData.length ++ xtgDigest pixelData ++ pixelData

theorem length_xtgPixelBytes (w h : Nat) (data : Nat → Nat) :
    (xtgPixelBytes w h data).length = xtgRowBytes w * h := by
  simp [xtgPixelBytes]

theorem length_imageDataToXtg (w h : Nat) (data : Nat → Nat) :
    (imageDataToXtg w h data).length = 22 + xtgRowBytes w * h := by
  simp only [imageDataToXtg, List.length_append, length_leBytes, xtgDigest,
    List.length_map, List.length_range, List.length_cons, List.length_nil,
    length_xtgPixelBytes]

/-! ## XTC container builder (`buildXtc` / `buildXtcFromRawPages`)

`buildXtc` (`src/lib/xtc-format.ts`) and `buildXtcFromRawPages` (same file,
and the identical copy in the split module) assemble the same bytes: a
48-byte header, one 16-byte index entry per page, then the page blobs
concatenated in page order with a running offset accumulator. -/

/-- One 16-byte index entry: uint64 absolute blob offset, uint32 blob
length, uint16 width, uint16 height (always the device target size). -/
def entryBytes (off len : Nat) : List Nat :=
  leBytes 8 off ++ leBytes 4 len ++ leBytes 2 TARGET_WIDTH ++
    leBytes 2 TARGET_HEIGHT

/-- The index section: entries written in a single forward pass, the running
offset starting at the data-section offset and advancing by each blob's
length. -/
def xtcIndexBytes : List (List Nat) → Nat → List Nat
  | [], _ => []
  | b :: bs, off => entryBytes off b.length ++ xtcIndexBytes bs (off + b.length)

/-- The 48-byte XTC header: magic `XTC\0`, uint16 version 1, uint16
pageCount, 8 zero flag bytes, uint64 metadataOffset 0, uint64 indexOffset,
uint64 dataOffset, uint64 reserved 0. -/
def xtcHeaderBytes (n : Nat) : List Nat :=
  [0x58, 0x54, 0x43, 0x00] ++ leBytes 2 1 ++ leBytes 2 n ++ [0, 0, 0, 0] ++
    leBytes 4 0 ++ leBytes 8 0 ++ leBytes 8 48 ++ leBytes 8 (48 + 16 * n) ++
    leBytes 8 0

/-- `buildXtcFromRawPages`: assemble a container from raw XTG page blobs
(the fast path used by the merge and split orchestrators). -/
def buildXtcFromRawPages (xtgBlobs : List (List Nat)) : List Nat :=
  xtcHeaderBytes xtgBlobs.length ++
    xtcIndexBytes xtgBlobs (48 + 16 * xtgBlobs.length) ++ xtgBlobs.flatten

/-- `buildXtc`: XTG-encode each page's 480x800 `ImageData` and assemble the
container (no metadata). -/
def buildXtc (pages : List (Nat → Nat)) : List Nat :=
  buildXtcFromRawPages
    (pages.map (fun page => imageDataToXtg TARGET_WIDTH TARGET_HEIGHT page))

theorem length_entryBytes (off len : Nat) : (entryBytes off len).length = 16 := by
  simp [entryBytes, length_leBytes]

theorem length_xtcHeaderBytes (n : Nat) : (xtcHeaderBytes n).length = 48 := by
  simp [xtcHeaderBytes, length_leBytes]

/-! ## XTC container parser (`parseXtcFile`, `src/lib/xtc-reader.ts`) -/

/-- A parsed 16-byte index entry (`parseIndexEntry`). -/
structure XtcIndexEntry where
  offset : Nat
  size : Nat
  width : Nat
  height : Nat
  deriving Repr, DecidableEq

/-- The parsed header fields used by the reader (`parseXtcHeader`). -/
structure XtcHeader where
  version : Nat
  pageCount : Nat
  indexOffset : Nat
  dataOffset : Nat
  deriving Repr, DecidableEq

/-- A fully parsed container (`ParsedXtc`). -/
structure ParsedXtc where
  header : XtcHeader
  entries : List XtcIndexEntry
  pageData : List (List Nat)
  deriving Repr, DecidableEq

/-- `parseIndexEntry`: read one 16-byte index entry at offset `off`. -/
def parseIndexEntry (buf : List Nat) (off : Nat) : XtcIndexEntry :=
  { offset := readLE buf off 8
    size := readLE buf (off + 8) 4
    width := readLE buf (off + 12) 2
    height := readLE buf (off + 14) 2 }

/-- `parseXtcFile`: verify the magic, read the header, read `pageCount`
index entries sequentially from `indexOffset`, and slice each page blob
from the buffer using its offset and length (no bitmap decode). -/
def parseXtcFile (buf : List Nat) : Except String ParsedXtc :=
  if buf.take 3 = [0x58, 0x54, 0x43] then
    let header : XtcHeader :=
      { version := readLE buf 4 2
        pageCount := readLE buf 6 2
        indexOffset := readLE buf 24 8
        dataOffset := readLE buf 32 8 }
    let entries := (List.range header.pageCount).map
      (fun i => parseIndexEntry buf (header.indexOffset + 16 * i))
    let pageData := entries.map (fun e => (buf.drop e.offset).take e.size)
    .ok { header := header, entries := entries, pageData := pageData }
  else
    .error "Invalid XTC file: bad magic number"

/-- `extractXtcRawPages`: the raw page blobs of a container (`xtc-reader.ts`);
the erroring branch of `parseXtcFile` propagates. -/
def extractXtcRawPages (buf : List Nat) : Except String (List (List Nat)) :=
  (parseXtcFile buf).map ParsedXtc.pageData

/-! ## Decomposition lemmas for the built container -/

/-- Total byte length of a list of blobs. -/
def sumLen (blobs : List (List Nat)) : Nat := (blobs.map List.length).sum

theorem sumLen_take_le (blobs : List (List Nat)) (i : Nat) :
    sumLen (blobs.take i) ≤ sumLen blobs := by
  induction blobs generalizing i with
  | nil => simp [sumLen]
  | cons b bs ih =>
    cases i with
    | zero => simp [sumLen]
    | succ j =>
      simp only [List.take_succ_cons, sumLen, List.map_cons, List.sum_cons]
      exact Nat.add_le_add_left (ih j) _

theorem length_xtcIndexBytes (blobs : List (List Nat)) (off : Nat) :
    (xtcIndexBytes blobs off).length = 16 * blobs.length := by
  induction blobs generalizing off with
  | nil => simp [xtcIndexBytes]
  | cons b bs ih =>
    simp only [xtcIndexBytes, List.length_append, length_entryBytes, ih,
      List.length_cons]
    ring

theorem length_buildXtcFromRawPages (blobs : List (List Nat)) :
    (buildXtcFromRawPages blobs).length =
      48 + 16 * blobs.length + sumLen blobs := by
  simp only [buildXtcFromRawPages, List.length_append, length_xtcHeaderBytes,
    length_xtcIndexBytes, List.length_flatten, sumLen]

theorem readLE_at (A B : List Nat) (k n off : Nat) (hoff : off = A.length) :
    readLE (A ++ leBytes k n ++ B) off k = n % 256 ^ k := by
  subst hoff; exact readLE_append_leBytes A B k n

/-- Decomposition of the index section around its `i`-th 16-byte entry. -/
theorem xtcIndexBytes_decomp (blobs : List (List Nat)) (off i : Nat)
    (hi : i < blobs.length) :
    ∃ pre post,
      xtcIndexBytes blobs off =
          pre ++ entryBytes (off + sumLen (blobs.take i))
            (blobs.getD i []).length ++ post ∧
        pre.length = 16 * i := by
  induction blobs generalizing off i with
  | nil => simp at hi
  | cons b bs ih =>
    cases i with
    | zero =>
      exact ⟨[], xtcIndexBytes bs (off + b.length),
        by simp [xtcIndexBytes, sumLen], rfl⟩
    | succ j =>
      obtain ⟨pre, post, heq, hlen⟩ := ih (off + b.length) j (by simpa using hi)
      refine ⟨entryBytes off b.length ++ pre, post, ?_, ?_⟩
      · simp only [xtcIndexBytes, heq, List.take_succ_cons, sumLen,
          List.map_cons, List.sum_cons, List.getD_cons_succ, List.append_assoc]
        rw [Nat.add_assoc]
      · simp only [List.length_append, length_entryBytes, hlen]; ring

/-- Decomposition of the data section around the `i`-th blob. -/
theorem flatten_decomp (blobs : List (List Nat)) (i : Nat)
    (hi : i < blobs.length) :
    ∃ pre post,
      blobs.flatten = pre ++ blobs.getD i [] ++ post ∧
        pre.length = sumLen (blobs.take i) := by
  induction blobs generalizing i with
  | nil => simp at hi
  | cons b bs ih =>
    cases i with
    | zero => exact ⟨[], bs.flatten, by simp [sumLen], by simp [sumLen]⟩
    | succ j =>
      obtain ⟨pre, post, heq, hlen⟩ := ih j (by simpa using hi)
      refine ⟨b ++ pre, post, ?_, ?_⟩
      · simp [heq, List.append_assoc]
      · simp [hlen, sumLen]

/-- Reading an index entry embedded at a known byte offset. -/
theorem parseIndexEntry_embedded (A B : List Nat) (off len j : Nat)
    (hj : j = A.length) :
    parseIndexEntry (A ++ entryBytes off len ++ B) j =
      { offset := off % 256 ^ 8, size := len % 256 ^ 4,
        width := TARGET_WIDTH, height := TARGET_HEIGHT } := by
  subst hj
  have e1 : A ++ entryBytes off len ++ B =
      A ++ leBytes 8 off ++ (leBytes 4 len ++ leBytes 2 TARGET_WIDTH ++
        leBytes 2 TARGET_HEIGHT ++ B) := by
    simp [entryBytes, List.append_assoc]
  have e2 : A ++ entryBytes off len ++ B =
      (A ++ leBytes 8 off) ++ leBytes 4 len ++ (leBytes 2 TARGET_WIDTH ++
        leBytes 2 TARGET_HEIGHT ++ B) := by
    simp [entryBytes, List.append_assoc]
  have e3 : A ++ entryBytes off len ++ B =
      (A ++ leBytes 8 off ++ leBytes 4 len) ++ leBytes 2 TARGET_WIDTH ++
        (leBytes 2 TARGET_HEIGHT ++ B) := by
    simp [entryBytes, List.append_assoc]
  have e4 : A ++ entryBytes off len ++ B =
      (A ++ leBytes 8 off ++ leBytes 4 len ++ leBytes 2 TARGET_WIDTH) ++
        leBytes 2 TARGET_HEIGHT ++ B := by
    simp [entryBytes, List.append_assoc]
  unfold parseIndexEntry
  rw [XtcIndexEntry.mk.injEq]
  refine ⟨?_, ?_, ?_, ?_⟩
  · rw [e1]; exact readLE_at _ _ _ _ _ rfl
  · rw [e2, readLE_at _ _ _ _ _ (by simp [length_leBytes])]
  · rw [e3, readLE_at _ _ _ _ _ (by simp [length_leBytes])]
    decide
  · rw [e4, readLE_at _ _ _ _ _ (by simp [length_leBytes])]
    decide

/-- Round trip of the container layer: parsing a container built from raw
page blobs recovers the header fields, the index entries of the single
forward pass, and the blobs themselves, provided the page count fits the
uint16 field, each blob length fits the uint32 field, and the container
fits 64-bit offsets. -/
theorem parseXtcFile_buildXtcFromRawPages (blobs : List (List Nat))
    (hn : blobs.length < 65536)
    (hlen : ∀ b ∈ blobs, b.length < 4294967296)
    (hsz : (buildXtcFromRawPages blobs).length < 18446744073709551616) :
    parseXtcFile (buildXtcFromRawPages blobs) = .ok
      { header := { version := 1, pageCount := blobs.length,
                    indexOffset := 48,
                    dataOffset := 48 + 16 * blobs.length },
        entries := (List.range blobs.length).map (fun i =>
          { offset := 48 + 16 * blobs.length + sumLen (blobs.take i),
            size := (blobs.getD i []).length,
            width := TARGET_WIDTH, height := TARGET_HEIGHT }),
        pageData := blobs } := by
  set n := blobs.length with hn_def
  have hbuf : buildXtcFromRawPages blobs =
      [0x58, 0x54, 0x43, 0x00] ++ leBytes 2 1 ++ leBytes 2 n ++
        ([0, 0, 0, 0] ++ leBytes 4 0) ++ leBytes 8 0 ++ leBytes 8 48 ++
        leBytes 8 (48 + 16 * n) ++ leBytes 8 0 ++
        (xtcIndexBytes blobs (48 + 16 * n) ++ blobs.flatten) := by
    simp [buildXtcFromRawPages, xtcHeaderBytes, List.append_assoc]
  have hsz' : 48 + 16 * n + sumLen blobs < 18446744073709551616 := by
    rw [← length_buildXtcFromRawPages]; exact hsz
  -- the header fields
  have hmagic : (buildXtcFromRawPages blobs).take 3 = [0x58, 0x54, 0x43] := by
    rw [hbuf]
    simp only [List.append_assoc]
    rw [List.take_append_of_le_length (by simp)]
    rfl
  have hversion : readLE (buildXtcFromRawPages blobs) 4 2 = 1 := by
    rw [hbuf,
      show [(0x58 : Nat), 0x54, 0x43, 0x00] ++ leBytes 2 1 ++ leBytes 2 n ++
          ([0, 0, 0, 0] ++ leBytes 4 0) ++ leBytes 8 0 ++ leBytes 8 48 ++
          leBytes 8 (48 + 16 * n) ++ leBytes 8 0 ++
          (xtcIndexBytes blobs (48 + 16 * n) ++ blobs.flatten) =
        [0x58, 0x54, 0x43, 0x00] ++ leBytes 2 1 ++
          (leBytes 2 n ++ ([0, 0, 0, 0] ++ leBytes 4 0) ++ leBytes 8 0 ++
            leBytes 8 48 ++ leBytes 8 (48 + 16 * n) ++ leBytes 8 0 ++
            (xtcIndexBytes blobs (48 + 16 * n) ++ blobs.flatten)) by
        simp [List.append_assoc],
      readLE_at _ _ _ _ _ (by simp)]
    norm_num
  have hcount : readLE (buildXtcFromRawPages blobs) 6 2 = n := by
    rw [hbuf,
      show [(0x58 : Nat), 0x54, 0x43, 0x00] ++ leBytes 2 1 ++ leBytes 2 n ++
          ([0, 0, 0, 0] ++ leBytes 4 0) ++ leBytes 8 0 ++ leBytes 8 48 ++
          leBytes 8 (48 + 16 * n) ++ leBytes 8 0 ++
          (xtcIndexBytes blobs (48 + 16 * n) ++ blobs.flatten) =
        ([0x58, 0x54, 0x43, 0x00] ++ leBytes 2 1) ++ leBytes 2 n ++
          (([0, 0, 0, 0] ++ leBytes 4 0) ++ leBytes 8 0 ++ leBytes 8 48 ++
            leBytes 8 (48 + 16 * n) ++ leBytes 8 0 ++
            (xtcIndexBytes blobs (48 + 16 * n) ++ blobs.flatten)) by
        simp [List.append_assoc],
      readLE_at _ _ _ _ _ (by simp [length_leBytes])]
    exact Nat.mod_eq_of_lt hn
  have hidxoff : readLE (buildXtcFromRawPages blobs) 24 8 = 48 := by
    rw [hbuf,
      show [(0x58 : Nat), 0x54, 0x43, 0x00] ++ leBytes 2 1 ++ leBytes 2 n ++
          ([0, 0, 0, 0] ++ leBytes 4 0) ++ leBytes 8 0 ++ leBytes 8 48 ++
          leBytes 8 (48 + 16 * n) ++ leBytes 8 0 ++
          (xtcIndexBytes blobs (48 + 16 * n) ++ blobs.flatten) =
        ([0x58, 0x54, 0x43, 0x00] ++ leBytes 2 1 ++ leBytes 2 n ++
            ([0, 0, 0, 0] ++ leBytes 4 0) ++ leBytes 8 0) ++ leBytes 8 48 ++
          (leBytes 8 (48 + 16 * n) ++ leBytes 8 0 ++
            (xtcIndexBytes blobs (48 + 16 * n) ++ blobs.flatten)) by
        simp [List.append_assoc],
      readLE_at _ _ _ _ _ (by simp [length_leBytes])]
    norm_num
  have hdataoff : readLE (buildXtcFromRawPages blobs) 32 8 = 48 + 16 * n := by
    rw [hbuf,
      show [(0x58 : Nat), 0x54, 0x43, 0x00] ++ leBytes 2 1 ++ leBytes 2 n ++
          ([0, 0, 0, 0] ++ leBytes 4 0) ++ leBytes 8 0 ++ leBytes 8 48 ++
          leBytes 8 (48 + 16 * n) ++ leBytes 8 0 ++
          (xtcIndexBytes blobs (48 + 16 * n) ++ blobs.flatten) =
        ([0x58, 0x54, 0x43, 0x00] ++ leBytes 2 1 ++ leBytes 2 n ++
            ([0, 0, 0, 0] ++ leBytes 4 0) ++ leBytes 8 0 ++ leBytes 8 48) ++
          leBytes 8 (48 + 16 * n) ++
          (leBytes 8 0 ++
            (xtcIndexBytes blobs (48 + 16 * n) ++ blobs.flatten)) by
        simp [List.append_assoc],
      readLE_at _ _ _ _ _ (by simp [length_leBytes])]
    exact Nat.mod_eq_of_lt (by omega)
  -- per-entry decomposition of the whole buffer
  have hentry : ∀ i < n,
      parseIndexEntry (buildXtcFromRawPages blobs) (48 + 16 * i) =
        { offset := 48 + 16 * n + sumLen (blobs.take i),
          size := (blobs.getD i []).length,
          width := TARGET_WIDTH, height := TARGET_HEIGHT } := by
    intro i hi
    obtain ⟨pre, post, heq, hprelen⟩ :=
      xtcIndexBytes_decomp blobs (48 + 16 * n) i hi
    have hbuf2 : buildXtcFromRawPages blobs =
        (xtcHeaderBytes n ++ pre) ++
          entryBytes (48 + 16 * n + sumLen (blobs.take i))
            (blobs.getD i []).length ++ (post ++ blobs.flatten) := by
      simp [buildXtcFromRawPages, ← hn_def, heq, List.append_assoc]
    rw [hbuf2, parseIndexEntry_embedded _ _ _ _ _
      (by simp [length_xtcHeaderBytes, hprelen])]
    have hoffb : 48 + 16 * n + sumLen (blobs.take i) < 256 ^ 8 := by
      have := sumLen_take_le blobs i
      have h8 : (256 : Nat) ^ 8 = 18446744073709551616 := by norm_num
      omega
    have hlenb : (blobs.getD i []).length < 256 ^ 4 := by
      have h4 : (256 : Nat) ^ 4 = 4294967296 := by norm_num
      have := hlen (blobs.getD i []) (by
        rw [List.getD_eq_getElem blobs [] hi]; exact blobs.getElem_mem hi)
      omega
    rw [XtcIndexEntry.mk.injEq]
    exact ⟨Nat.mod_eq_of_lt hoffb, Nat.mod_eq_of_lt hlenb, rfl, rfl⟩
  -- per-blob slice of the data section
  have hslice : ∀ i < n,
      ((buildXtcFromRawPages blobs).drop
          (48 + 16 * n + sumLen (blobs.take i))).take
        (blobs.getD i []).length = blobs.getD i [] := by
    intro i hi
    obtain ⟨pre, post, heq, hprelen⟩ := flatten_decomp blobs i hi
    have hbuf3 : buildXtcFromRawPages blobs =
        (xtcHeaderBytes n ++ xtcIndexBytes blobs (48 + 16 * n) ++ pre) ++
          blobs.getD i [] ++ post := by
      simp [buildXtcFromRawPages, ← hn_def, heq, List.append_assoc]
    have hClen : (xtcHeaderBytes n ++ xtcIndexBytes blobs (48 + 16 * n) ++
        pre).length = 48 + 16 * n + sumLen (blobs.take i) := by
      simp only [List.length_append, length_xtcHeaderBytes,
        length_xtcIndexBytes, hprelen, ← hn_def]
    rw [hbuf3, ← hClen]
    exact slice_append _ _ _
  -- assemble the parse result
  unfold parseXtcFile
  rw [if_pos hmagic]
  simp only [hversion, hcount, hidxoff, hdataoff]
  rw [Except.ok.injEq, ParsedXtc.mk.injEq]
  have hentries : (List.range n).map
      (fun i => parseIndexEntry (buildXtcFromRawPages blobs) (48 + 16 * i)) =
      (List.range n).map (fun i =>
        ({ offset := 48 + 16 * n + sumLen (blobs.take i),
           size := (blobs.getD i []).length,
           width := TARGET_WIDTH, height := TARGET_HEIGHT } : XtcIndexEntry)) := by
    refine List.map_congr_left ?_
    intro i hi
    exact hentry i (List.mem_range.mp hi)
  refine ⟨rfl, ?_, ?_⟩
  · exact hentries
  · rw [hentries, List.map_map]
    refine List.ext_getElem (by simp [← hn_def]) ?_
    intro i h1 h2
    have hi : i < n := by simpa using h1
    simp only [List.getElem_map, List.getElem_range, Function.comp]
    rw [hslice i hi, List.getD_eq_getElem blobs [] h2]

theorem sumLen_le_of_length_le (blobs : List (List Nat)) (c : Nat)
    (h : ∀ b ∈ blobs, b.length ≤ c) : sumLen blobs ≤ c * blobs.length := by
  induction blobs with
  | nil => simp [sumLen]
  | cons b bs ih =>
    simp only [sumLen, List.map_cons, List.sum_cons, List.length_cons]
    have h1 := h b (by simp)
    have h2 := ih (fun x hx => h x (by simp [hx]))
    simp only [sumLen] at h2
    rw [Nat.mul_succ]
    omega

theorem length_imageDataToXtg_target (data : Nat → Nat) :
    (imageDataToXtg TARGET_WIDTH TARGET_HEIGHT data).length = 48022 := by
  rw [length_imageDataToXtg]
  norm_num [xtgRowBytes, TARGET_WIDTH, TARGET_HEIGHT]

/-! ## The raw merge fast path (`mergeXtcFiles`, `src/lib/xtc-format.ts`) -/

/-- `mergeXtcFiles` with container-format output: extract the raw page
blobs of every input in file order (`extractXtcRawPages`), concatenate
them across files, and rebuild a single fresh container
(`buildXtcFromRawPages`); no page bitmap is ever decoded. -/
def mergeXtcFilesRaw (buffers : List (List Nat)) :
    Except String (List Nat) := do
  let pagesPerFile ← buffers.mapM extractXtcRawPages
  return buildXtcFromRawPages pagesPerFile.flatten

theorem mapM_extractXtcRawPages_ok (buffers : List (List Nat))
    (Ls : List (List (List Nat)))
    (h : List.Forall₂ (fun buf L => extractXtcRawPages buf = .ok L)
      buffers Ls) :
    buffers.mapM extractXtcRawPages = .ok Ls := by
  induction h with
  | nil => rfl
  | cons hbl _ ih =>
    rw [List.mapM_cons, hbl, ih]
    rfl

/-! ## Claims C1, C4, C10: container round trips -/

/-- C1. For every non-empty list of pages encoded without metadata
(`buildXtc`), decoding the container (`parseXtcFile`) yields exactly `N`
page blobs, and the `i`-th blob is byte-identical to the XTG encoding of
the `i`-th page's bitmap.  The page count must fit the uint16 `pageCount`
field of the header. -/
theorem C1_buildXtc_parseXtcFile_roundtrip (pages : List (Nat → Nat))
    (hne : pages ≠ []) (hn : pages.length < 65536) :
    ∃ p : ParsedXtc, parseXtcFile (buildXtc pages) = .ok p ∧
      p.pageData.length = pages.length ∧
      p.pageData = pages.map
        (fun page => imageDataToXtg TARGET_WIDTH TARGET_HEIGHT page) := by
  set blobs := pages.map
    (fun page => imageDataToXtg TARGET_WIDTH TARGET_HEIGHT page) with hblobs
  have hlenb : ∀ b ∈ blobs, b.length = 48022 := by
    intro b hb
    rw [hblobs] at hb
    obtain ⟨page, _, rfl⟩ := List.mem_map.mp hb
    exact length_imageDataToXtg_target page
  have hnb : blobs.length = pages.length := by simp [hblobs]
  have h1 : blobs.length < 65536 := by rw [hnb]; exact hn
  have h2 : ∀ b ∈ blobs, b.length < 4294967296 := by
    intro b hb; rw [hlenb b hb]; norm_num
  have h3 : (buildXtcFromRawPages blobs).length < 18446744073709551616 := by
    rw [length_buildXtcFromRawPages]
    have hsum : sumLen blobs ≤ 48022 * blobs.length :=
      sumLen_le_of_length_le blobs 48022 (fun b hb => le_of_eq (hlenb b hb))
    omega
  refine ⟨_, parseXtcFile_buildXtcFromRawPages blobs h1 h2 h3, by simp [hnb], rfl⟩

/-- C1 witness: a concrete single-page encode/decode round trip. -/
theorem C1_witness :
    (([fun _ => 0] : List (Nat → Nat)) ≠ [] ∧
      ([fun _ => 0] : List (Nat → Nat)).length < 65536) ∧
    ∃ p : ParsedXtc,
      parseXtcFile (buildXtc [fun _ => 0]) = .ok p ∧
      p.pageData.length = ([fun _ => 0] : List (Nat → Nat)).length ∧
      p.pageData = ([fun _ => 0] : List (Nat → Nat)).map
        (fun page => imageDataToXtg TARGET_WIDTH TARGET_HEIGHT page) :=
  ⟨⟨by simp, by simp⟩,
    C1_buildXtc_parseXtcFile_roundtrip [fun _ => 0] (by simp) (by simp)⟩

/-- C4. Merging container-format inputs to container-format output through
the raw fast path produces one container whose page blobs are the
concatenation, in file order then page order, of the inputs' raw page
blobs, each preserved byte-for-byte (no bitmap decode); the bounds say the
merged page count fits uint16, each blob length fits uint32, and the
merged container fits 64-bit offsets. -/
theorem C4_mergeXtcFiles_raw_fast_path (buffers : List (List Nat))
    (Ls : List (List (List Nat)))
    (hext : List.Forall₂ (fun buf L => extractXtcRawPages buf = .ok L)
      buffers Ls)
    (hn : Ls.flatten.length < 65536)
    (hlen : ∀ b ∈ Ls.flatten, b.length < 4294967296)
    (hsz : 48 + 16 * Ls.flatten.length + sumLen Ls.flatten <
      18446744073709551616) :
    ∃ merged : List Nat, mergeXtcFilesRaw buffers = .ok merged ∧
      extractXtcRawPages merged = .ok Ls.flatten := by
  have hmapM := mapM_extractXtcRawPages_ok buffers Ls hext
  have hsz' : (buildXtcFromRawPages Ls.flatten).length <
      18446744073709551616 := by
    rw [length_buildXtcFromRawPages]; exact hsz
  refine ⟨buildXtcFromRawPages Ls.flatten, ?_, ?_⟩
  · unfold mergeXtcFilesRaw
    rw [hmapM]
    rfl
  · unfold extractXtcRawPages
    rw [parseXtcFile_buildXtcFromRawPages Ls.flatten hn hlen hsz']
    rfl

/-- C4 witness: merging two concrete single-page containers `A` and `B`
yields a 2-page container whose first raw blob is `A`'s only blob and whose
second is `B`'s only blob, byte-for-byte. -/
theorem C4_witness :
    (List.Forall₂ (fun buf L => extractXtcRawPages buf = .ok L)
        [buildXtcFromRawPages [[1, 2, 3]], buildXtcFromRawPages [[4, 5]]]
        [[[1, 2, 3]], [[4, 5]]] ∧
      ([[[1, 2, 3]], [[4, 5]]] : List (List (List Nat))).flatten.length <
        65536 ∧
      (∀ b ∈ ([[[1, 2, 3]], [[4, 5]]] :
        List (List (List Nat))).flatten, b.length < 4294967296) ∧
      48 + 16 * ([[[1, 2, 3]], [[4, 5]]] :
          List (List (List Nat))).flatten.length +
        sumLen ([[[1, 2, 3]], [[4, 5]]] :
          List (List (List Nat))).flatten < 18446744073709551616) ∧
    ∃ merged : List Nat,
      mergeXtcFilesRaw
        [buildXtcFromRawPages [[1, 2, 3]], buildXtcFromRawPages [[4, 5]]] =
        .ok merged ∧
      extractXtcRawPages merged = .ok [[1, 2, 3], [4, 5]] :=
  ⟨⟨List.Forall₂.cons (by rfl)
      (List.Forall₂.cons (by rfl) List.Forall₂.nil),
    by decide, by decide, by decide⟩,
    C4_mergeXtcFiles_raw_fast_path
      [buildXtcFromRawPages [[1, 2, 3]], buildXtcFromRawPages [[4, 5]]]
      [[[1, 2, 3]], [[4, 5]]]
      (List.Forall₂.cons (by rfl)
        (List.Forall₂.cons (by rfl) List.Forall₂.nil))
      (by decide) (by decide) (by decide)⟩

/-- C10. Every index entry written by the raw fast path records width 480
and height 800 (the device target dimensions), regardless of the bytes of
the source blobs; only blob bytes, offsets and lengths depend on the
sources. -/
theorem C10_raw_path_entry_dimensions (blobs : List (List Nat))
    (hn : blobs.length < 65536)
    (hlen : ∀ b ∈ blobs, b.length < 4294967296)
    (hsz : (buildXtcFromRawPages blobs).length < 18446744073709551616) :
    ∃ p : ParsedXtc, parseXtcFile (buildXtcFromRawPages blobs) = .ok p ∧
      p.entries.length = blobs.length ∧
      ∀ e ∈ p.entries, e.width = 480 ∧ e.height = 800 := by
  refine ⟨_, parseXtcFile_buildXtcFromRawPages blobs hn hlen hsz, by simp, ?_⟩
  intro e he
  simp only [List.mem_map, List.mem_range] at he
  obtain ⟨i, _, rfl⟩ := he
  exact ⟨rfl, rfl⟩

/-- C10 witness: a blob whose own XTG-style header bytes claim a 7x9
bitmap still gets a 480x800 index entry. -/
theorem C10_witness :
    (([[0x58, 0x54, 0x47, 0x00, 7, 0, 9, 0]] : List (List Nat)).length <
        65536 ∧
      (∀ b ∈ ([[0x58, 0x54, 0x47, 0x00, 7, 0, 9, 0]] : List (List Nat)),
        b.length < 4294967296) ∧
      (buildXtcFromRawPages
        [[0x58, 0x54, 0x47, 0x00, 7, 0, 9, 0]]).length <
        18446744073709551616) ∧
    ∃ p : ParsedXtc,
      parseXtcFile
        (buildXtcFromRawPages [[0x58, 0x54, 0x47, 0x00, 7, 0, 9, 0]]) =
        .ok p ∧
      p.entries.length = 1 ∧
      ∀ e ∈ p.entries, e.width = 480 ∧ e.height = 800 :=
  ⟨⟨by decide, by decide, by decide⟩,
    C10_raw_path_entry_dimensions [[0x58, 0x54, 0x47, 0x00, 7, 0, 9, 0]]
      (by decide) (by decide) (by decide)⟩

/-! ## Claim C8: XTG row packing

The packing loop of `imageDataToXtg` is characterized byte by byte: the
bits ORed into one byte of the packed bitmap form a mask accumulated in
`x` order along the row. -/

/-- The bit mask accumulated into byte `i` by the first `k` iterations of
the inner (`x`) packing loop for row `y`. -/
def rowMask (w : Nat) (data : Nat → Nat) (y i : Nat) : Nat → Nat
  | 0 => 0
  | k + 1 =>
    rowMask w data y i k |||
      (if i = y * xtgRowBytes w + k / 8 ∧ 128 ≤ data (4 * (y * w + k)) then
        1 <<< (7 - k % 8) else 0)

theorem rowMask_succ (w : Nat) (data : Nat → Nat) (y i k : Nat) :
    rowMask w data y i (k + 1) =
      rowMask w data y i k |||
        (if i = y * xtgRowBytes w + k / 8 ∧ 128 ≤ data (4 * (y * w + k)) then
          1 <<< (7 - k % 8) else 0) := rfl

theorem rowFold_eq_mask (w : Nat) (data : Nat → Nat) (y : Nat)
    (s : Nat → Nat) (k : Nat) :
    (List.range k).foldl (fun s x => xtgSetPixel w data y x s) s =
      fun i => s i ||| rowMask w data y i k := by
  induction k with
  | zero => funext i; simp [rowMask]
  | succ m ih =>
    rw [List.range_succ, List.foldl_append, ih]
    funext i
    simp only [List.foldl_cons, List.foldl_nil]
    rw [rowMask_succ]
    unfold xtgSetPixel
    by_cases hdata : 128 ≤ data (4 * (y * w + m))
    · simp only [if_pos hdata]
      unfold updNat
      by_cases hidx : i = y * xtgRowBytes w + m / 8
      · simp only [if_pos hidx, if_pos (And.intro hidx hdata)]
        rw [Nat.or_assoc, hidx]
      · simp only [if_neg hidx,
          if_neg (fun hc => hidx (And.left hc)), Nat.or_zero]
    · simp only [if_neg hdata,
        if_neg (fun hc => hdata (And.right hc)), Nat.or_zero]

theorem testBit_rowMask (w : Nat) (data : Nat → Nat) (y i k j : Nat) :
    (rowMask w data y i k).testBit j = true ↔
      ∃ x, x < k ∧ i = y * xtgRowBytes w + x / 8 ∧ j = 7 - x % 8 ∧
        128 ≤ data (4 * (y * w + x)) := by
  induction k with
  | zero => simp [rowMask]
  | succ m ih =>
    rw [rowMask_succ, Nat.testBit_or, Bool.or_eq_true, ih]
    constructor
    · rintro (⟨x, hx, hrest⟩ | h2)
      · exact ⟨x, Nat.lt_succ_of_lt hx, hrest⟩
      · split at h2
        case isTrue hc =>
          rw [Nat.one_shiftLeft, Nat.testBit_two_pow] at h2
          exact ⟨m, Nat.lt_succ_self m, hc.1, (of_decide_eq_true h2).symm,
            hc.2⟩
        case isFalse hc => simp at h2
    · rintro ⟨x, hx, hi, hj, hd⟩
      rcases Nat.lt_succ_iff_lt_or_eq.mp hx with hlt | rfl
      · exact Or.inl ⟨x, hlt, hi, hj, hd⟩
      · refine Or.inr ?_
        rw [if_pos ⟨hi, hd⟩, Nat.one_shiftLeft, Nat.testBit_two_pow]
        exact decide_eq_true hj.symm

theorem rowMask_eq_zero (w : Nat) (data : Nat → Nat) (y i k : Nat)
    (h : ∀ x, x < k → i ≠ y * xtgRowBytes w + x / 8) :
    rowMask w data y i k = 0 := by
  induction k with
  | zero => rfl
  | succ m ih =>
    rw [rowMask_succ, ih (fun x hx => h x (Nat.lt_succ_of_lt hx)),
      if_neg (fun hc => h m (Nat.lt_succ_self m) hc.1)]
    simp

theorem row_index_inj (R y b t c : Nat) (hb : b < R) (hc : c < R)
    (h : y * R + b = t * R + c) : y = t ∧ b = c := by
  have hR : 0 < R := by omega
  have h1 : (R * y + b) / R = y := by
    rw [Nat.mul_add_div hR, Nat.div_eq_of_lt hb, Nat.add_zero]
  have h2 : (R * t + c) / R = t := by
    rw [Nat.mul_add_div hR, Nat.div_eq_of_lt hc, Nat.add_zero]
  have h' : R * y + b = R * t + c := by
    rw [Nat.mul_comm R y, Nat.mul_comm R t]; exact h
  have hyt : y = t := by rw [← h1, ← h2, h']
  subst hyt
  exact ⟨rfl, by omega⟩

theorem div8_lt_rowBytes (w x : Nat) (hx : x < w) :
    x / 8 < xtgRowBytes w := by
  unfold xtgRowBytes
  omega

theorem xtgPackMap_eq_rowMask (w h : Nat) (data : Nat → Nat) (y b : Nat)
    (hy : y < h) (hb : b < xtgRowBytes w) :
    xtgPackMap w h data (y * xtgRowBytes w + b) =
      rowMask w data y (y * xtgRowBytes w + b) w := by
  have key : ∀ m : Nat,
      ((List.range m).foldl
          (fun s yr =>
            (List.range w).foldl (fun s x => xtgSetPixel w data yr x s) s)
          (fun _ => 0)) (y * xtgRowBytes w + b) =
        if y < m then rowMask w data y (y * xtgRowBytes w + b) w else 0 := by
    intro m
    induction m with
    | zero => simp
    | succ t ih =>
      rw [List.range_succ, List.foldl_append]
      simp only [List.foldl_cons, List.foldl_nil]
      rw [rowFold_eq_mask]
      dsimp only
      rw [ih]
      by_cases hyt : y = t
      · subst hyt
        rw [if_neg (Nat.lt_irrefl y), if_pos (Nat.lt_succ_self y),
          Nat.zero_or]
      · have hzero : rowMask w data t (y * xtgRowBytes w + b) w = 0 := by
          refine rowMask_eq_zero w data t _ w ?_
          intro x hx heq
          exact hyt (row_index_inj (xtgRowBytes w) y b t (x / 8) hb
            (div8_lt_rowBytes w x hx) heq).1
        rw [hzero, Nat.or_zero]
        by_cases hylt : y < t
        · rw [if_pos hylt, if_pos (Nat.lt_succ_of_lt hylt)]
        · rw [if_neg hylt, if_neg (by omega)]
  have hk := key h
  rw [if_pos hy] at hk
  exact hk

/-- C8. For every width and height, the XTG encoder packs each row into
exactly `ceil(width/8)` bytes (characterized by `w ≤ 8*rowBytes < w + 8`
together with the blob length `22 + rowBytes * h`), writes bits MSB-first
with bit 1 exactly when the source red channel is at least 128 (1 = white),
and leaves every unused trailing bit in the final byte of each row zero. -/
theorem C8_xtg_row_packing (w h : Nat) (data : Nat → Nat) :
    w ≤ 8 * xtgRowBytes w ∧ 8 * xtgRowBytes w < w + 8 ∧
    (imageDataToXtg w h data).length = 22 + xtgRowBytes w * h ∧
    (∀ y, y < h → ∀ x, x < w →
      Nat.testBit (xtgPackMap w h data (y * xtgRowBytes w + x / 8))
          (7 - x % 8) =
        decide (128 ≤ data (4 * (y * w + x)))) ∧
    (∀ y, y < h → ∀ j, j < 8 * xtgRowBytes w - w →
      Nat.testBit
        (xtgPackMap w h data
          (y * xtgRowBytes w + (xtgRowBytes w - 1))) j = false) := by
  refine ⟨by unfold xtgRowBytes; omega, by unfold xtgRowBytes; omega,
    length_imageDataToXtg w h data, ?_, ?_⟩
  · intro y hy x hx
    rw [xtgPackMap_eq_rowMask w h data y (x / 8) hy (div8_lt_rowBytes w x hx)]
    by_cases hd : 128 ≤ data (4 * (y * w + x))
    · rw [decide_eq_true hd]
      rw [(testBit_rowMask w data y _ w (7 - x % 8)).mpr ⟨x, hx, rfl, rfl, hd⟩]
    · rw [decide_eq_false hd]
      by_contra hbit
      rw [Bool.not_eq_false] at hbit
      obtain ⟨x2, hx2, hieq, hjeq, hd2⟩ :=
        (testBit_rowMask w data y _ w (7 - x % 8)).mp hbit
      have hdiv : x2 / 8 = x / 8 := by omega
      have hmod : x2 % 8 = x % 8 := by omega
      have : x2 = x := by omega
      exact hd (this ▸ hd2)
  · intro y hy j hj
    have hrb : 0 < xtgRowBytes w := by unfold xtgRowBytes at hj ⊢; omega
    rw [xtgPackMap_eq_rowMask w h data y (xtgRowBytes w - 1) hy (by omega)]
    by_contra hbit
    rw [Bool.not_eq_false] at hbit
    obtain ⟨x2, hx2, hieq, hjeq, hd2⟩ :=
      (testBit_rowMask w data y _ w j).mp hbit
    have hdiv : x2 / 8 = xtgRowBytes w - 1 := by omega
    unfold xtgRowBytes at hdiv hj
    omega

/-- C8 witness: in a 10-wide bitmap (rowBytes 2) row 0, the bit of pixel
`x = 3` reflects its 200-valued red channel, and trailing bit 5 of the
final row byte is zero. -/
theorem C8_witness :
    (0 < 1 ∧ 3 < 10 ∧ 0 < 1 ∧ 5 < 8 * xtgRowBytes 10 - 10) ∧
    Nat.testBit (xtgPackMap 10 1 (fun _ => 200)
        (0 * xtgRowBytes 10 + 3 / 8)) (7 - 3 % 8) =
      decide (128 ≤ (fun _ => 200 : Nat → Nat) (4 * (0 * 10 + 3))) ∧
    Nat.testBit (xtgPackMap 10 1 (fun _ => 200)
        (0 * xtgRowBytes 10 + (xtgRowBytes 10 - 1))) 5 = false :=
  ⟨⟨by decide, by decide, by decide, by decide⟩,
    (C8_xtg_row_packing 10 1 (fun _ => 200)).2.2.2.1 0 (by decide) 3
      (by decide),
    (C8_xtg_row_packing 10 1 (fun _ => 200)).2.2.2.2 0 (by decide) 5
      (by decide)⟩

/-! ## Claim C3: page mapping and TOC remapping (`src/lib/page-mapping.ts`) -/

/-- A TOC entry (`TocEntry` in `metadata/types.ts`). -/
structure TocEntry where
  title : String
  startPage : Nat
  endPage : Nat
  deriving Repr, DecidableEq

/-- One recorded mapping (`PageMapping`): original page, first output page,
number of output pages. -/
structure PageMapping where
  originalPage : Nat
  xtcStartPage : Nat
  xtcPageCount : Nat
  deriving Repr, DecidableEq

/-- The mutable conversion context (`PageMappingContext`): recorded
mappings plus the running next-output-page counter. -/
structure PageMappingContext where
  mappings : List PageMapping
  currentXtcPage : Nat
  deriving Repr, DecidableEq

/-- A fresh context: no mappings, counter at 1. -/
def PageMappingContext.init : PageMappingContext := ⟨[], 1⟩

/-- `addOriginalPage(originalPage, xtcPageCount)`: append a mapping entry
and advance the running output-page counter. -/
def PageMappingContext.addOriginalPage (ctx : PageMappingContext)
    (originalPage xtcPageCount : Nat) : PageMappingContext :=
  { mappings := ctx.mappings ++
      [⟨originalPage, ctx.currentXtcPage, xtcPageCount⟩],
    currentXtcPage := ctx.currentXtcPage + xtcPageCount }

/-- `getXtcPage(originalPage)`: the recorded output start page, or the
original page number unchanged if no mapping was recorded. -/
def PageMappingContext.getXtcPage (ctx : PageMappingContext)
    (originalPage : Nat) : Nat :=
  match ctx.mappings.find? (fun m => m.originalPage = originalPage) with
  | some m => m.xtcStartPage
  | none => originalPage

/-- `getTotalXtcPages()`: `currentXtcPage - 1`. -/
def PageMappingContext.getTotalXtcPages (ctx : PageMappingContext) : Nat :=
  ctx.currentXtcPage - 1

/-- `adjustTocForMapping(toc, mappingCtx)`: remap each chapter in original
order; `newStart = getXtcPage(oldStart)`, `newEnd` is the page before the
next chapter's new start, or the total output page count for the last
chapter. (The source's `toc.map((entry, index) => ...)` is rendered as a
map over the index range, reading `toc[index]` and `toc[index + 1]`.) -/
def adjustTocForMapping (toc : List TocEntry) (ctx : PageMappingContext) :
    List TocEntry :=
  if toc.isEmpty then []
  else
    let totalXtcPages := ctx.getTotalXtcPages
    (List.range toc.length).map (fun index =>
      let entry := toc.getD index ⟨"", 0, 0⟩
      let adjustedStartPage := ctx.getXtcPage entry.startPage
      let adjustedEndPage :=
        if index < toc.length - 1 then
          ctx.getXtcPage (toc.getD (index + 1) ⟨"", 0, 0⟩).startPage - 1
        else totalXtcPages
      { title := entry.title, startPage := adjustedStartPage,
        endPage := adjustedEndPage })

/-- The fold over a list of `(index, count)` pairs performing
`addOriginalPage(index + 1, count)` in order (every caller of
`addOriginalPage` in the repository numbers original pages `1, 2, ...` in
sequence). -/
def addLoop (l : List (Nat × Nat)) (ctx : PageMappingContext) :
    PageMappingContext :=
  l.foldl (fun ctx p => ctx.addOriginalPage (p.1 + 1) p.2) ctx

/-- The context built by the sequence of calls `addOriginalPage(i + 1,
counts[i])`. -/
def mkMapping (counts : List Nat) : PageMappingContext :=
  addLoop counts.enum PageMappingContext.init

/-- Contiguous-and-gapless over `[1, total]`: the first chapter starts at
page 1, each chapter starts right after its predecessor ends, and the
last chapter ends at `total`. -/
def tocGapless (toc : List TocEntry) (total : Nat) : Prop :=
  toc.head?.map TocEntry.startPage = some 1 ∧
  toc.getLast?.map TocEntry.endPage = some total ∧
  List.Chain' (fun a b => b.startPage = a.endPage + 1) toc

instance (toc : List TocEntry) (total : Nat) :
    Decidable (tocGapless toc total) := by
  unfold tocGapless
  infer_instance

theorem addLoop_mappings_mem (l : List (Nat × Nat))
    (ctx : PageMappingContext) :
    ∀ m ∈ (addLoop l ctx).mappings,
      m ∈ ctx.mappings ∨ ctx.currentXtcPage ≤ m.xtcStartPage := by
  induction l generalizing ctx with
  | nil => intro m hm; exact Or.inl hm
  | cons p rest ih =>
    intro m hm
    rcases ih (ctx.addOriginalPage (p.1 + 1) p.2) m hm with hmem | hge
    · simp only [PageMappingContext.addOriginalPage, List.mem_append,
        List.mem_singleton] at hmem
      rcases hmem with h1 | h2
      · exact Or.inl h1
      · subst h2; exact Or.inr (le_refl _)
    · simp only [PageMappingContext.addOriginalPage] at hge
      exact Or.inr (le_trans (Nat.le_add_right _ _) hge)

theorem addLoop_mappings_extend (l : List (Nat × Nat))
    (ctx : PageMappingContext) :
    ∃ extra, (addLoop l ctx).mappings = ctx.mappings ++ extra := by
  induction l generalizing ctx with
  | nil => exact ⟨[], (List.append_nil _).symm⟩
  | cons p rest ih =>
    obtain ⟨extra, hex⟩ := ih (ctx.addOriginalPage (p.1 + 1) p.2)
    refine ⟨[⟨p.1 + 1, ctx.currentXtcPage, p.2⟩] ++ extra, ?_⟩
    rw [show addLoop (p :: rest) ctx =
      addLoop rest (ctx.addOriginalPage (p.1 + 1) p.2) from rfl, hex]
    simp [PageMappingContext.addOriginalPage]

theorem mkMapping_mappings_pos (counts : List Nat) :
    ∀ m ∈ (mkMapping counts).mappings, 1 ≤ m.xtcStartPage := by
  intro m hm
  rcases addLoop_mappings_mem counts.enum PageMappingContext.init m hm with
    hmem | hge
  · simp [PageMappingContext.init] at hmem
  · exact hge

theorem mkMapping_getXtcPage_pos (counts : List Nat) (p : Nat)
    (hp : 1 ≤ p) : 1 ≤ (mkMapping counts).getXtcPage p := by
  unfold PageMappingContext.getXtcPage
  cases hfind : (mkMapping counts).mappings.find?
      (fun m => m.originalPage = p) with
  | none => exact hp
  | some m =>
    exact mkMapping_mappings_pos counts m (List.mem_of_find?_eq_some hfind)

theorem mkMapping_getXtcPage_one (counts : List Nat) :
    (mkMapping counts).getXtcPage 1 = 1 := by
  cases counts with
  | nil => rfl
  | cons c rest =>
    unfold PageMappingContext.getXtcPage
    have hstep : mkMapping (c :: rest) =
        addLoop (rest.enumFrom 1)
          (PageMappingContext.init.addOriginalPage 1 c) := by
      rfl
    obtain ⟨extra, hex⟩ := addLoop_mappings_extend (rest.enumFrom 1)
      (PageMappingContext.init.addOriginalPage 1 c)
    rw [hstep, hex]
    simp [PageMappingContext.addOriginalPage, PageMappingContext.init,
      List.find?_cons]

/-- C3 counterexample: the claim quantifies over every non-empty TOC and
every mapping; for the one-chapter TOC starting at original page 2 and the
mapping `addOriginalPage(1,1); addOriginalPage(2,1)`, the remapped TOC is
`[2..2]` over 2 output pages, which is not gapless over `[1, 2]`. -/
theorem C3_counterexample :
    ¬ tocGapless
        (adjustTocForMapping [⟨"", 2, 2⟩] (mkMapping [1, 1]))
        ((mkMapping [1, 1]).getTotalXtcPages) := by
  decide

/-- C3, amended: when the mapping is built by the calls
`addOriginalPage(1, c1), ..., addOriginalPage(n, cn)` in page order (as
every conversion loop in the repository does) and the non-empty TOC has
1-based start pages with its first chapter starting at original page 1,
the remapped chapter ranges are contiguous and gapless over
`[1, totalOutputPages]`. -/
theorem C3_toc_remap_contiguous (counts : List Nat) (toc : List TocEntry)
    (hne : toc ≠ [])
    (hpos : ∀ e ∈ toc, 1 ≤ e.startPage)
    (hfirst : (toc.getD 0 ⟨"", 0, 0⟩).startPage = 1) :
    tocGapless (adjustTocForMapping toc (mkMapping counts))
      ((mkMapping counts).getTotalXtcPages) := by
  obtain ⟨m, hm⟩ : ∃ m, toc.length = m + 1 := by
    cases toc with
    | nil => exact absurd rfl hne
    | cons a l => exact ⟨l.length, rfl⟩
  unfold adjustTocForMapping
  rw [if_neg (by simp only [List.isEmpty_iff]; exact hne)]
  refine ⟨?_, ?_, ?_⟩
  · -- the first chapter starts at output page 1
    rw [List.head?_map, hm, List.range_succ_eq_map]
    simp only [List.head?_cons, Option.map_some', Option.some.injEq]
    rw [hfirst, mkMapping_getXtcPage_one]
  · -- the last chapter ends at the total output page count
    rw [hm, List.range_succ, List.map_append]
    simp only [List.map_cons, List.map_nil, List.getLast?_concat,
      Option.map_some', Option.some.injEq]
    rw [if_neg (by omega)]
  · -- each chapter starts right after its predecessor ends
    rw [List.chain'_map, hm, List.chain'_range_succ]
    intro i hi
    simp only [Nat.succ_eq_add_one]
    rw [if_pos (by omega)]
    have hmem : toc.getD (i + 1) ⟨"", 0, 0⟩ ∈ toc := by
      rw [List.getD_eq_getElem toc _ (by omega)]
      exact List.getElem_mem _
    have hs : 1 ≤ (toc.getD (i + 1) ⟨"", 0, 0⟩).startPage := hpos _ hmem
    have hg : 1 ≤ (mkMapping counts).getXtcPage
        (toc.getD (i + 1) ⟨"", 0, 0⟩).startPage :=
      mkMapping_getXtcPage_pos counts _ hs
    omega

/-- C3 witness: the spec's own example — three chapters starting at
original pages 1, 5 and 10 over 12 original pages, page 5 expanding to two
output pages — remaps to gapless ranges over `[1, 13]`. -/
theorem C3_witness :
    (([⟨"Ch1", 1, 12⟩, ⟨"Ch2", 5, 12⟩, ⟨"Ch3", 10, 12⟩] :
        List TocEntry) ≠ [] ∧
      (∀ e ∈ ([⟨"Ch1", 1, 12⟩, ⟨"Ch2", 5, 12⟩, ⟨"Ch3", 10, 12⟩] :
        List TocEntry), 1 ≤ e.startPage) ∧
      (([⟨"Ch1", 1, 12⟩, ⟨"Ch2", 5, 12⟩, ⟨"Ch3", 10, 12⟩] :
        List TocEntry).getD 0 ⟨"", 0, 0⟩).startPage = 1) ∧
    tocGapless
      (adjustTocForMapping
        [⟨"Ch1", 1, 12⟩, ⟨"Ch2", 5, 12⟩, ⟨"Ch3", 10, 12⟩]
        (mkMapping [1, 1, 1, 1, 2, 1, 1, 1, 1, 1, 1, 1]))
      ((mkMapping [1, 1, 1, 1, 2, 1, 1, 1, 1, 1, 1, 1]).getTotalXtcPages) :=
  ⟨⟨by decide, by decide, by decide⟩,
    C3_toc_remap_contiguous [1, 1, 1, 1, 2, 1, 1, 1, 1, 1, 1, 1]
      [⟨"Ch1", 1, 12⟩, ⟨"Ch2", 5, 12⟩, ⟨"Ch3", 10, 12⟩]
      (by decide) (by decide) (by decide)⟩

/-! ## Claim C5: overlap segmentation (`calculateOverlapSegments`,
`src/lib/processing/image.ts`)

JavaScript numbers are modelled as exact rationals; the literal `0.95` is
modelled as `19/20`.  The guard `if (numSegments > 1)` of the source is
trivially true at the initial count 3, and the loop recomputes `shift`
after each increment, so the final `shift` is always the shift formula at
the final segment count. -/

/-- One crop segment `{x, y, w, h}`. -/
structure Segment where
  x : Int
  y : Int
  w : Int
  h : Int
  deriving Repr, DecidableEq

/-- `segmentHeight = Math.floor(480 / scale)` with `scale = 800 / width`. -/
def overlapSegmentHeight (width : Nat) : Int :=
  ⌊(480 : ℚ) / ((800 : ℚ) / (width : ℚ))⌋

/-- `shift = Math.floor(segmentHeight - (segmentHeight * numSegments -
height) / (numSegments - 1))`. -/
def overlapShift (segmentHeight : Int) (height : Nat)
    (numSegments : Nat) : Int :=
  ⌊(segmentHeight : ℚ) -
    ((segmentHeight : ℚ) * (numSegments : ℚ) - (height : ℚ)) /
      ((numSegments : ℚ) - 1)⌋

/-- The `while` loop raising the segment count: increment while
`shift / segmentHeight > 0.95` and `numSegments < 10`.  Seven units of
fuel cover the whole possible range `3..10`. -/
def overlapLoop (segmentHeight : Int) (height : Nat) :
    Nat → Nat → Nat
  | 0, n => n
  | fuel + 1, n =>
    if (overlapShift segmentHeight height n : ℚ) / (segmentHeight : ℚ) >
          19/20 ∧ n < 10 then
      overlapLoop segmentHeight height fuel (n + 1)
    else n

/-- `calculateOverlapSegments(width, height)`: N segments at `y = shift*i`
of height `segmentHeight`, the last one reaching the bottom of the page. -/
def calculateOverlapSegments (width height : Nat) : List Segment :=
  let segmentHeight := overlapSegmentHeight width
  let numSegments := overlapLoop segmentHeight height 7 3
  let shift := overlapShift segmentHeight height numSegments
  (List.range numSegments).map (fun (i : Nat) =>
    { x := 0, y := shift * (i : Int), w := (width : Int),
      h := if i = numSegments - 1 then
          (height : Int) - shift * (i : Int)
        else segmentHeight })

theorem overlapLoop_zero (segmentHeight : Int) (height n : Nat) :
    overlapLoop segmentHeight height 0 n = n := rfl

theorem overlapLoop_succ (segmentHeight : Int) (height fuel n : Nat) :
    overlapLoop segmentHeight height (fuel + 1) n =
      if (overlapShift segmentHeight height n : ℚ) / (segmentHeight : ℚ) >
            19/20 ∧ n < 10 then
        overlapLoop segmentHeight height fuel (n + 1)
      else n := rfl

theorem overlapLoop_spec (segmentHeight : Int) (height : Nat)
    (fuel n : Nat) (hfuel : 10 ≤ n + fuel) (hn10 : n ≤ 10) :
    n ≤ overlapLoop segmentHeight height fuel n ∧
    overlapLoop segmentHeight height fuel n ≤ 10 ∧
    (∀ m, n ≤ m → m < overlapLoop segmentHeight height fuel n →
      (overlapShift segmentHeight height m : ℚ) / (segmentHeight : ℚ) >
        19/20) ∧
    (overlapLoop segmentHeight height fuel n < 10 →
      ¬ ((overlapShift segmentHeight height
            (overlapLoop segmentHeight height fuel n) : ℚ) /
          (segmentHeight : ℚ) > 19/20)) := by
  induction fuel generalizing n with
  | zero =>
    rw [overlapLoop_zero]
    exact ⟨le_refl n, hn10, fun m h1 h2 => absurd h1 (by omega), by omega⟩
  | succ f ih =>
    rw [overlapLoop_succ]
    by_cases hc : (overlapShift segmentHeight height n : ℚ) /
        (segmentHeight : ℚ) > 19/20 ∧ n < 10
    · rw [if_pos hc]
      obtain ⟨ih1, ih2, ih3, ih4⟩ := ih (n + 1) (by omega) (by omega)
      refine ⟨by omega, ih2, ?_, ih4⟩
      intro m h1 h2
      rcases Nat.eq_or_lt_of_le h1 with rfl | hlt
      · exact hc.1
      · exact ih3 m hlt h2
    · rw [if_neg hc]
      refine ⟨le_refl n, hn10, fun m h1 h2 => absurd h1 (by omega), ?_⟩
      intro h10 hgt
      exact hc ⟨hgt, by omega⟩

theorem calculateOverlapSegments_eq (width height : Nat) :
    calculateOverlapSegments width height =
      (List.range (overlapLoop (overlapSegmentHeight width) height 7 3)).map
        (fun (i : Nat) =>
          { x := 0,
            y := overlapShift (overlapSegmentHeight width) height
                (overlapLoop (overlapSegmentHeight width) height 7 3) *
              (i : Int),
            w := (width : Int),
            h := if i =
                overlapLoop (overlapSegmentHeight width) height 7 3 - 1 then
                (height : Int) -
                  overlapShift (overlapSegmentHeight width) height
                      (overlapLoop (overlapSegmentHeight width) height 7 3) *
                    (i : Int)
              else overlapSegmentHeight width }) := rfl

/-- C5. In overlap mode, `calculateOverlapSegments` returns `N` segments
with `3 ≤ N ≤ 10`, where `N` starts at 3 and is incremented exactly while
`shift/segmentHeight > 0.95` and `N < 10` (with `shift` the floor formula
of the spec); segment `i` starts at `y = shift*i` with height
`segmentHeight`, except the final segment whose height is
`sourceHeight - shift*(N-1)`.  `2 ≤ width` keeps `segmentHeight` positive
so the rational model of the JavaScript arithmetic is meaningful. -/
theorem C5_calculateOverlapSegments_spec (width height : Nat)
    (hw : 2 ≤ width) :
    3 ≤ (calculateOverlapSegments width height).length ∧
    (calculateOverlapSegments width height).length ≤ 10 ∧
    (∀ m, 3 ≤ m → m < (calculateOverlapSegments width height).length →
      (overlapShift (overlapSegmentHeight width) height m : ℚ) /
        (overlapSegmentHeight width : ℚ) > 19/20) ∧
    ((calculateOverlapSegments width height).length < 10 →
      ¬ ((overlapShift (overlapSegmentHeight width) height
            (calculateOverlapSegments width height).length : ℚ) /
          (overlapSegmentHeight width : ℚ) > 19/20)) ∧
    (∀ i, (hi : i < (calculateOverlapSegments width height).length) →
      (calculateOverlapSegments width height).get ⟨i, hi⟩ =
        { x := 0,
          y := overlapShift (overlapSegmentHeight width) height
              (calculateOverlapSegments width height).length * (i : Int),
          w := (width : Int),
          h := if i = (calculateOverlapSegments width height).length - 1
            then (height : Int) -
              overlapShift (overlapSegmentHeight width) height
                  (calculateOverlapSegments width height).length *
                (((calculateOverlapSegments width height).length - 1 :
                  Nat) : Int)
            else overlapSegmentHeight width }) := by
  obtain ⟨h1, h2, h3, h4⟩ :=
    overlapLoop_spec (overlapSegmentHeight width) height 7 3
      (by omega) (by omega)
  rw [calculateOverlapSegments_eq]
  set N := overlapLoop (overlapSegmentHeight width) height 7 3 with hN
  simp only [List.length_map, List.length_range]
  refine ⟨h1, h2, h3, h4, ?_⟩
  intro i hi
  simp only [List.get_eq_getElem, List.getElem_map, List.getElem_range]
  by_cases hlast : i = N - 1
  · rw [if_pos hlast, if_pos hlast, hlast]
  · rw [if_neg hlast, if_neg hlast]

/-- C5 witness: a 1000x3000 source page. -/
theorem C5_witness :
    2 ≤ 1000 ∧
    (3 ≤ (calculateOverlapSegments 1000 3000).length ∧
      (calculateOverlapSegments 1000 3000).length ≤ 10) :=
  ⟨by norm_num,
    ⟨(C5_calculateOverlapSegments_spec 1000 3000 (by norm_num)).1,
      (C5_calculateOverlapSegments_spec 1000 3000 (by norm_num)).2.1⟩⟩

/-! ## Claim C6: dithering engine (`src/lib/processing/dithering.ts`)

The RGBA buffer is a function from byte index to value; `Float32Array`
pixel accumulators are functions to exact rationals.  Each algorithm
produces the common R=G=B channel value of a pixel; `applyDithering`
rebuilds the full RGBA buffer (alpha untouched). -/

/-- `applyThreshold`: per-pixel `>= 128 -> 255 else 0`. -/
def applyThreshold (data : Nat → Nat) (p : Nat) : ℚ :=
  if 128 ≤ data (4 * p) then 255 else 0

/-- The fixed Bayer 4x4 matrix. -/
def bayer : List (List Nat) :=
  [[0, 8, 2, 10], [12, 4, 14, 6], [3, 11, 1, 9], [15, 7, 13, 5]]

/-- `applyOrdered`: white iff the value exceeds the Bayer threshold
`matrix[y%4][x%4] / 16 * 255`. -/
def applyOrdered (w : Nat) (data : Nat → Nat) (p : Nat) : ℚ :=
  let x := p % w
  let y := p / w
  let threshold : ℚ := (((bayer.getD (y % 4) []).getD (x % 4) 0 : ℚ) / 16) * 255
  if (data (4 * p) : ℚ) > threshold then 255 else 0

/-- `if c then pixels[i] += q` — one guarded error-diffusion write (the
source's nested bounds checks are rendered as one guard per write, the
inner checks conjoined with the enclosing `y` bound check). -/
def guardAdd (c : Prop) [Decidable c] (i : Nat) (q : ℚ) (t : Nat → ℚ) :
    Nat → ℚ :=
  if c then addAt t i q else t

/-- One iteration of the Sierra Lite loop at raster position `k`
(`x = k % w`, `y = k / w`): quantize the pixel and diffuse the error
`2/4` right, `1/4` bottom-left, `1/4` bottom. -/
def sierraLiteStep (w hgt k : Nat) (s : Nat → ℚ) : Nat → ℚ :=
  let x := k % w
  let y := k / w
  let oldPixel := s k
  let newPixel : ℚ := if 128 ≤ oldPixel then 255 else 0
  let error := oldPixel - newPixel
  guardAdd (y + 1 < hgt) (k + w) (error * 1 / 4)
    (guardAdd (y + 1 < hgt ∧ 0 < x) (k + w - 1) (error * 1 / 4)
      (guardAdd (x + 1 < w) (k + 1) (error * 2 / 4)
        (updQ s k newPixel)))

/-- One iteration of the Atkinson loop: diffuse `error/8` to six
neighbors (right, right+1, bottom-left, bottom, bottom-right, two rows
down). -/
def atkinsonStep (w hgt k : Nat) (s : Nat → ℚ) : Nat → ℚ :=
  let x := k % w
  let y := k / w
  let oldPixel := s k
  let newPixel : ℚ := if 128 ≤ oldPixel then 255 else 0
  let error := (oldPixel - newPixel) / 8
  guardAdd (y + 2 < hgt) (k + w * 2) error
    (guardAdd (y + 1 < hgt ∧ x + 1 < w) (k + w + 1) error
      (guardAdd (y + 1 < hgt) (k + w) error
        (guardAdd (y + 1 < hgt ∧ 0 < x) (k + w - 1) error
          (guardAdd (x + 2 < w) (k + 2) error
            (guardAdd (x + 1 < w) (k + 1) error
              (updQ s k newPixel))))))

/-- One iteration of the Floyd-Steinberg loop: diffuse `7/16` right,
`3/16` bottom-left, `5/16` bottom, `1/16` bottom-right. -/
def floydSteinbergStep (w hgt k : Nat) (s : Nat → ℚ) : Nat → ℚ :=
  let x := k % w
  let y := k / w
  let oldPixel := s k
  let newPixel : ℚ := if 128 ≤ oldPixel then 255 else 0
  let error := oldPixel - newPixel
  guardAdd (y + 1 < hgt ∧ x + 1 < w) (k + w + 1) (error * 1 / 16)
    (guardAdd (y + 1 < hgt) (k + w) (error * 5 / 16)
      (guardAdd (y + 1 < hgt ∧ 0 < x) (k + w - 1) (error * 3 / 16)
        (guardAdd (x + 1 < w) (k + 1) (error * 7 / 16)
          (updQ s k newPixel))))

/-- Run a diffusion loop over all raster positions in order, starting from
the grayscale values `data[4*i]`, then clamp to `[0, 255]` as in the
write-back loop. -/
def diffuse (step : Nat → (Nat → ℚ) → Nat → ℚ) (w hgt : Nat)
    (data : Nat → Nat) : Nat → ℚ :=
  let pixels := (List.range (w * hgt)).foldl (fun s k => step k s)
    (fun i => (data (4 * i) : ℚ))
  fun p => max 0 (min 255 (pixels p))

/-- `applySierraLite` (diffusion runner instantiated with its loop body). -/
def applySierraLite (w hgt : Nat) (data : Nat → Nat) : Nat → ℚ :=
  diffuse (sierraLiteStep w hgt) w hgt data

/-- `applyAtkinson`. -/
def applyAtkinson (w hgt : Nat) (data : Nat → Nat) : Nat → ℚ :=
  diffuse (atkinsonStep w hgt) w hgt data

/-- `applyFloydSteinberg`. -/
def applyFloydSteinberg (w hgt : Nat) (data : Nat → Nat) : Nat → ℚ :=
  diffuse (floydSteinbergStep w hgt) w hgt data

/-- `applyDithering`: string-tag dispatch with Floyd-Steinberg as the
default branch; the selected algorithm writes the common channel value of
each pixel back to the R, G and B bytes, leaving alpha untouched. -/
def applyDithering (w hgt : Nat) (algorithm : String)
    (data : Nat → Nat) : Nat → ℚ :=
  let chan : Nat → ℚ :=
    match algorithm with
    | "none" => applyThreshold data
    | "sierra-lite" => applySierraLite w hgt data
    | "atkinson" => applyAtkinson w hgt data
    | "floyd" => applyFloydSteinberg w hgt data
    | "ordered" => applyOrdered w data
    | _ => applyFloydSteinberg w hgt data
  fun idx => if idx % 4 = 3 then (data idx : ℚ) else chan (idx / 4)

theorem updQ_ne (s : Nat → ℚ) (i : Nat) (v : ℚ) (j : Nat) (hj : j ≠ i) :
    updQ s i v j = s j := by
  unfold updQ
  exact if_neg hj

theorem updQ_self (s : Nat → ℚ) (i : Nat) (v : ℚ) : updQ s i v i = v := by
  unfold updQ
  exact if_pos rfl

theorem guardAdd_ne (c : Prop) [Decidable c] (i : Nat) (q : ℚ)
    (t : Nat → ℚ) (j : Nat) (hj : c → j ≠ i) :
    guardAdd c i q t j = t j := by
  unfold guardAdd addAt
  split_ifs with hc
  · exact updQ_ne _ _ _ _ (hj hc)
  · rfl

theorem sierraLiteStep_lower (w hgt : Nat) (hw : 0 < w) (k : Nat)
    (s : Nat → ℚ) (j : Nat) (hj : j < k) :
    sierraLiteStep w hgt k s j = s j := by
  have hm : k % w < w := Nat.mod_lt k hw
  unfold sierraLiteStep
  rw [guardAdd_ne _ _ _ _ _ (fun _ => by omega),
    guardAdd_ne _ _ _ _ _ (fun hc => by
      have := hc.2
      omega),
    guardAdd_ne _ _ _ _ _ (fun _ => by omega),
    updQ_ne _ _ _ _ (by omega)]

theorem sierraLiteStep_self (w hgt : Nat) (hw : 0 < w) (k : Nat)
    (s : Nat → ℚ) :
    sierraLiteStep w hgt k s k = 0 ∨ sierraLiteStep w hgt k s k = 255 := by
  have hm : k % w < w := Nat.mod_lt k hw
  unfold sierraLiteStep
  rw [guardAdd_ne _ _ _ _ _ (fun _ => by omega),
    guardAdd_ne _ _ _ _ _ (fun hc => by
      have := hc.2
      omega),
    guardAdd_ne _ _ _ _ _ (fun _ => by omega),
    updQ_self]
  split_ifs
  · right; rfl
  · left; rfl

theorem atkinsonStep_lower (w hgt : Nat) (hw : 0 < w) (k : Nat)
    (s : Nat → ℚ) (j : Nat) (hj : j < k) :
    atkinsonStep w hgt k s j = s j := by
  have hm : k % w < w := Nat.mod_lt k hw
  unfold atkinsonStep
  rw [guardAdd_ne _ _ _ _ _ (fun _ => by omega),
    guardAdd_ne _ _ _ _ _ (fun _ => by omega),
    guardAdd_ne _ _ _ _ _ (fun _ => by omega),
    guardAdd_ne _ _ _ _ _ (fun hc => by
      have := hc.2
      omega),
    guardAdd_ne _ _ _ _ _ (fun _ => by omega),
    guardAdd_ne _ _ _ _ _ (fun _ => by omega),
    updQ_ne _ _ _ _ (by omega)]

theorem atkinsonStep_self (w hgt : Nat) (hw : 0 < w) (k : Nat)
    (s : Nat → ℚ) :
    atkinsonStep w hgt k s k = 0 ∨ atkinsonStep w hgt k s k = 255 := by
  have hm : k % w < w := Nat.mod_lt k hw
  unfold atkinsonStep
  rw [guardAdd_ne _ _ _ _ _ (fun _ => by omega),
    guardAdd_ne _ _ _ _ _ (fun _ => by omega),
    guardAdd_ne _ _ _ _ _ (fun _ => by omega),
    guardAdd_ne _ _ _ _ _ (fun hc => by
      have := hc.2
      omega),
    guardAdd_ne _ _ _ _ _ (fun _ => by omega),
    guardAdd_ne _ _ _ _ _ (fun _ => by omega),
    updQ_self]
  split_ifs
  · right; rfl
  · left; rfl

theorem floydSteinbergStep_lower (w hgt : Nat) (hw : 0 < w) (k : Nat)
    (s : Nat → ℚ) (j : Nat) (hj : j < k) :
    floydSteinbergStep w hgt k s j = s j := by
  have hm : k % w < w := Nat.mod_lt k hw
  unfold floydSteinbergStep
  rw [guardAdd_ne _ _ _ _ _ (fun _ => by omega),
    guardAdd_ne _ _ _ _ _ (fun _ => by omega),
    guardAdd_ne _ _ _ _ _ (fun hc => by
      have := hc.2
      omega),
    guardAdd_ne _ _ _ _ _ (fun _ => by omega),
    updQ_ne _ _ _ _ (by omega)]

theorem floydSteinbergStep_self (w hgt : Nat) (hw : 0 < w) (k : Nat)
    (s : Nat → ℚ) :
    floydSteinbergStep w hgt k s k = 0 ∨
      floydSteinbergStep w hgt k s k = 255 := by
  have hm : k % w < w := Nat.mod_lt k hw
  unfold floydSteinbergStep
  rw [guardAdd_ne _ _ _ _ _ (fun _ => by omega),
    guardAdd_ne _ _ _ _ _ (fun _ => by omega),
    guardAdd_ne _ _ _ _ _ (fun hc => by
      have := hc.2
      omega),
    guardAdd_ne _ _ _ _ _ (fun _ => by omega),
    updQ_self]
  split_ifs
  · right; rfl
  · left; rfl

theorem diffuse_mem (step : Nat → (Nat → ℚ) → Nat → ℚ)
    (hlower : ∀ k s j, j < k → step k s j = s j)
    (hself : ∀ k s, step k s k = 0 ∨ step k s k = 255)
    (w hgt : Nat) (data : Nat → Nat) (p : Nat) (hp : p < w * hgt) :
    diffuse step w hgt data p = 0 ∨ diffuse step w hgt data p = 255 := by
  have key : ∀ m (s0 : Nat → ℚ), ∀ j, j < m →
      ((List.range m).foldl (fun s k => step k s) s0) j = 0 ∨
        ((List.range m).foldl (fun s k => step k s) s0) j = 255 := by
    intro m
    induction m with
    | zero => intro s0 j hj; omega
    | succ t ih =>
      intro s0 j hj
      rw [List.range_succ, List.foldl_append]
      simp only [List.foldl_cons, List.foldl_nil]
      rcases Nat.lt_succ_iff_lt_or_eq.mp hj with hlt | rfl
      · rw [hlower t _ j hlt]
        exact ih s0 j hlt
      · exact hself j _
  rcases key (w * hgt) (fun i => (data (4 * i) : ℚ)) p hp with h0 | h255
  · left
    unfold diffuse
    rw [h0]
    norm_num
  · right
    unfold diffuse
    rw [h255]
    norm_num

theorem applyThreshold_mem (data : Nat → Nat) (p : Nat) :
    applyThreshold data p = 0 ∨ applyThreshold data p = 255 := by
  unfold applyThreshold
  split_ifs
  · right; rfl
  · left; rfl

theorem applyOrdered_mem (w : Nat) (data : Nat → Nat) (p : Nat) :
    applyOrdered w data p = 0 ∨ applyOrdered w data p = 255 := by
  unfold applyOrdered
  dsimp only
  split_ifs
  · right; rfl
  · left; rfl

theorem applySierraLite_mem (w hgt : Nat) (hw : 0 < w)
    (data : Nat → Nat) (p : Nat) (hp : p < w * hgt) :
    applySierraLite w hgt data p = 0 ∨ applySierraLite w hgt data p = 255 :=
  diffuse_mem _ (fun k s j hj => sierraLiteStep_lower w hgt hw k s j hj)
    (fun k s => sierraLiteStep_self w hgt hw k s) w hgt data p hp

theorem applyAtkinson_mem (w hgt : Nat) (hw : 0 < w)
    (data : Nat → Nat) (p : Nat) (hp : p < w * hgt) :
    applyAtkinson w hgt data p = 0 ∨ applyAtkinson w hgt data p = 255 :=
  diffuse_mem _ (fun k s j hj => atkinsonStep_lower w hgt hw k s j hj)
    (fun k s => atkinsonStep_self w hgt hw k s) w hgt data p hp

theorem applyFloydSteinberg_mem (w hgt : Nat) (hw : 0 < w)
    (data : Nat → Nat) (p : Nat) (hp : p < w * hgt) :
    applyFloydSteinberg w hgt data p = 0 ∨
      applyFloydSteinberg w hgt data p = 255 :=
  diffuse_mem _ (fun k s j hj => floydSteinbergStep_lower w hgt hw k s j hj)
    (fun k s => floydSteinbergStep_self w hgt hw k s) w hgt data p hp

/-- C6. For every input buffer, width, height and algorithm tag (including
unrecognized tags, which dispatch to the default Floyd-Steinberg branch),
after `applyDithering` every pixel's R, G and B channels are equal and
each is exactly 0 or 255. -/
theorem C6_applyDithering_monochrome (algorithm : String) (w hgt : Nat)
    (data : Nat → Nat) (p : Nat) (hp : p < w * hgt) :
    applyDithering w hgt algorithm data (4 * p) =
        applyDithering w hgt algorithm data (4 * p + 1) ∧
      applyDithering w hgt algorithm data (4 * p + 1) =
        applyDithering w hgt algorithm data (4 * p + 2) ∧
      (applyDithering w hgt algorithm data (4 * p) = 0 ∨
        applyDithering w hgt algorithm data (4 * p) = 255) := by
  have hw : 0 < w := by
    rcases Nat.eq_zero_or_pos w with rfl | h
    · simp at hp
    · exact h
  have h0 : ¬((4 * p) % 4 = 3) := by omega
  have h1 : ¬((4 * p + 1) % 4 = 3) := by omega
  have h2 : ¬((4 * p + 2) % 4 = 3) := by omega
  have e0 : (4 * p) / 4 = p := by omega
  have e1 : (4 * p + 1) / 4 = p := by omega
  have e2 : (4 * p + 2) / 4 = p := by omega
  unfold applyDithering
  rw [if_neg h0, if_neg h1, if_neg h2, e0, e1, e2]
  refine ⟨rfl, rfl, ?_⟩
  split
  · exact applyThreshold_mem data p
  · exact applySierraLite_mem w hgt hw data p hp
  · exact applyAtkinson_mem w hgt hw data p hp
  · exact applyFloydSteinberg_mem w hgt hw data p hp
  · exact applyOrdered_mem w data p
  · exact applyFloydSteinberg_mem w hgt hw data p hp

/-- C6 witness: an unrecognized algorithm tag (exercising the default
branch) on a 2x2 buffer. -/
theorem C6_witness :
    1 < 2 * 2 ∧
    (applyDithering 2 2 "unknown-tag" (fun i => i * 37 % 256) (4 * 1) =
        applyDithering 2 2 "unknown-tag" (fun i => i * 37 % 256) (4 * 1 + 1) ∧
      applyDithering 2 2 "unknown-tag" (fun i => i * 37 % 256) (4 * 1 + 1) =
        applyDithering 2 2 "unknown-tag" (fun i => i * 37 % 256) (4 * 1 + 2) ∧
      (applyDithering 2 2 "unknown-tag" (fun i => i * 37 % 256) (4 * 1) = 0 ∨
        applyDithering 2 2 "unknown-tag" (fun i => i * 37 % 256) (4 * 1) =
          255)) :=
  ⟨by norm_num,
    C6_applyDithering_monochrome "unknown-tag" 2 2
      (fun i => i * 37 % 256) 1 (by norm_num)⟩

/-! ## Claim C7: the contrast-stretch stage (`applyContrast`,
`src/lib/processing/image.ts`, guarded by `options.contrast > 0` in
`processLoadedImage`)

`Math.round` is modelled half-up; the decimal luminosity weights are
modelled as exact rationals.  The remapped channel value is kept as the
clamped rational the source computes (the implicit byte-store rounding of
`Uint8ClampedArray` is not modelled; the level-0 claim never reaches it). -/

/-- `Math.round` (round half toward positive infinity, as in JavaScript). -/
def jsRound (q : ℚ) : ℤ := ⌊q + 1/2⌋

/-- The gray value the histogram loop computes for pixel `p`. -/
def grayOf (data : Nat → Nat) (p : Nat) : ℤ :=
  jsRound ((299/1000 : ℚ) * data (4 * p) + (587/1000 : ℚ) * data (4 * p + 1)
    + (114/1000 : ℚ) * data (4 * p + 2))

/-- The 256-bin histogram of gray values. -/
def histogram (w hgt : Nat) (data : Nat → Nat) (g : Nat) : Nat :=
  ((List.range (w * hgt)).filter (fun p => grayOf data p = (g : ℤ))).length

/-- Running count of the low-to-high cutoff scan after bin `i`. -/
def cumFromLow (w hgt : Nat) (data : Nat → Nat) (i : Nat) : Nat :=
  ((List.range (i + 1)).map (histogram w hgt data)).sum

/-- Running count of the high-to-low cutoff scan down to bin `i`. -/
def cumFromHigh (w hgt : Nat) (data : Nat → Nat) (i : Nat) : Nat :=
  (((List.range 256).filter (fun j => i ≤ j)).map
    (histogram w hgt data)).sum

/-- `blackPoint`: the first bin at which the cumulative histogram mass
reaches the black threshold, scanning from the low end (0 if never). -/
def blackPoint (w hgt level : Nat) (data : Nat → Nat) : Nat :=
  ((List.range 256).find? (fun i =>
    (w * hgt : ℚ) * (3 * level) / 100 ≤ (cumFromLow w hgt data i : ℚ))).getD 0

/-- `whitePoint`: the first bin at which the cumulative histogram mass
reaches the white threshold, scanning from the high end (255 if never). -/
def whitePoint (w hgt level : Nat) (data : Nat → Nat) : Nat :=
  ((List.range 256).reverse.find? (fun i =>
    (w * hgt : ℚ) * (3 + 9 * level) / 100 ≤
      (cumFromHigh w hgt data i : ℚ))).getD 255

/-- `applyContrast(ctx, width, height, level)`: histogram, cutoff points,
then per-channel remap `clamp(0, 255, (v - blackPoint) / range * 255)` if
`range > 0`, else the buffer is left unchanged. -/
def applyContrast (w hgt level : Nat) (data : Nat → Nat) : Nat → ℚ :=
  let bp := blackPoint w hgt level data
  let wp := whitePoint w hgt level data
  let range : ℤ := (wp : ℤ) - (bp : ℤ)
  if 0 < range then
    fun idx =>
      if idx % 4 = 3 then (data idx : ℚ)
      else max 0 (min 255 (((data idx : ℚ) - (bp : ℚ)) / (range : ℚ) * 255))
  else fun idx => (data idx : ℚ)

/-- The contrast-stretch pipeline stage: `processLoadedImage` (and
`processCanvasAsImage`) call `applyContrast` only when
`options.contrast > 0`. -/
def contrastStage (w hgt level : Nat) (data : Nat → Nat) : Nat → ℚ :=
  if 0 < level then applyContrast w hgt level data
  else fun idx => (data idx : ℚ)

/-- C7. For every image, the contrast-stretch stage at level 0 is a no-op:
the pixel buffer after the stage equals the buffer before it exactly. -/
theorem C7_contrastStage_level_zero (w hgt : Nat) (data : Nat → Nat) :
    contrastStage w hgt 0 data = fun idx => (data idx : ℚ) := by
  unfold contrastStage
  rw [if_neg (by omega)]

/-! ## Claim C9: page-range parsing (`parsePageRanges`, split module)

Strings are modelled as character lists.  `parseInt(s, 10)` on a trimmed
part is modelled as: optional sign, then a non-empty decimal digit prefix
(trailing garbage ignored); `none` models `NaN`. -/

/-- A parsed page range; the source's `end` field is called `stop` here
because `end` is reserved in Lean. -/
structure PageRange where
  start : Int
  stop : Int
  deriving Repr, DecidableEq

/-- `String.prototype.split` on a single separator character:
`"" -> [""]`, separators at the edges produce empty parts. -/
def splitOnChar (sep : Char) : List Char → List (List Char)
  | [] => [[]]
  | c :: rest =>
    match splitOnChar sep rest with
    | [] => if c = sep then [[], []] else [[c]]
    | p :: ps => if c = sep then [] :: p :: ps else (c :: p) :: ps

/-- `String.prototype.trim`. -/
def jsTrim (s : List Char) : List Char :=
  ((s.dropWhile Char.isWhitespace).reverse.dropWhile Char.isWhitespace).reverse

/-- The value of the leading decimal-digit prefix, `none` if there is no
digit. -/
def digitsValue (s : List Char) : Option Nat :=
  let ds := s.takeWhile Char.isDigit
  if ds.isEmpty then none
  else some (ds.foldl (fun n c => n * 10 + (c.toNat - 48)) 0)

/-- `parseInt(s, 10)` on an already-trimmed string. -/
def jsParseInt : List Char → Option Int
  | '-' :: rest => (digitsValue rest).map (fun n => -(n : Int))
  | '+' :: rest => (digitsValue rest).map (fun n => (n : Int))
  | s => (digitsValue s).map (fun n => (n : Int))

/-- One part of the range string: either `a-b` (split on `-`, both sides
parsed, then `start < 1 || end > totalPages || start > end` rejected) or a
single page number (rejected when out of `[1, totalPages]`). -/
def parseRangePart (totalPages : Nat) (part : List Char) :
    Except String PageRange :=
  if part.contains '-' then
    match (splitOnChar '-' part).map jsTrim with
    | startStr :: endStr :: _ =>
      match jsParseInt startStr, jsParseInt endStr with
      | some s, some e =>
        if s < 1 ∨ (totalPages : Int) < e ∨ e < s then
          .error "Invalid range"
        else .ok ⟨s, e⟩
      | _, _ => .error "Invalid range"
    | _ => .error "Invalid range"
  else
    match jsParseInt part with
    | some page =>
      if page < 1 ∨ (totalPages : Int) < page then .error "Invalid page"
      else .ok ⟨page, page⟩
    | none => .error "Invalid page"

/-- The sequential loop over the comma-separated parts: the first bad part
throws, aborting the whole parse. -/
def parseRangeParts (totalPages : Nat) :
    List (List Char) → Except String (List PageRange)
  | [] => .ok []
  | p :: ps =>
    match parseRangePart totalPages p with
    | .error e => .error e
    | .ok r =>
      match parseRangeParts totalPages ps with
      | .error e => .error e
      | .ok rs => .ok (r :: rs)

/-- `parsePageRanges(input, totalPages)`: split on commas, trim, drop
empty parts, then parse each part in order. -/
def parsePageRanges (input : List Char) (totalPages : Nat) :
    Except String (List PageRange) :=
  parseRangeParts totalPages
    (((splitOnChar ',' input).map jsTrim).filter (fun p => ¬p.isEmpty))

/-- The start/end pair a part denotes, when it parses as numbers at all
(mirrors the parsing in `parseRangePart` without the bounds checks). -/
def partBounds (part : List Char) : Option (Int × Int) :=
  if part.contains '-' then
    match (splitOnChar '-' part).map jsTrim with
    | startStr :: endStr :: _ =>
      match jsParseInt startStr, jsParseInt endStr with
      | some s, some e => some (s, e)
      | _, _ => none
    | _ => none
  else
    (jsParseInt part).map (fun page => (page, page))

/-- A part that denotes an out-of-bounds or inverted range. -/
def badPart (totalPages : Nat) (part : List Char) : Prop :=
  match partBounds part with
  | some (s, e) => s < 1 ∨ (totalPages : Int) < e ∨ e < s
  | none => False

instance (totalPages : Nat) (part : List Char) :
    Decidable (badPart totalPages part) :=
  match hb : partBounds part with
  | some (s, e) =>
    decidable_of_iff (s < 1 ∨ (totalPages : Int) < e ∨ e < s)
      (by unfold badPart; rw [hb])
  | none => isFalse (by unfold badPart; rw [hb]; exact id)

theorem parseRangePart_error_of_bad (totalPages : Nat) (part : List Char)
    (hb : badPart totalPages part) :
    ∃ msg, parseRangePart totalPages part = .error msg := by
  unfold badPart at hb
  unfold partBounds at hb
  unfold parseRangePart
  by_cases hc : part.contains '-'
  · rw [if_pos hc] at hb ⊢
    cases hsplit : (splitOnChar '-' part).map jsTrim with
    | nil =>
      rw [hsplit] at hb
      dsimp only at hb
    | cons a rest =>
      cases rest with
      | nil =>
        rw [hsplit] at hb
        dsimp only at hb
      | cons b rest2 =>
        rw [hsplit] at hb
        dsimp only at hb
        cases hpa : jsParseInt a with
        | none =>
          rw [hpa] at hb
          dsimp only at hb
        | some va =>
          cases hpb : jsParseInt b with
          | none =>
            rw [hpa, hpb] at hb
            dsimp only at hb
          | some vb =>
            rw [hpa, hpb] at hb
            dsimp only at hb
            dsimp only
            rw [hpa, hpb]
            dsimp only
            rw [if_pos hb]
            exact ⟨_, rfl⟩
  · rw [if_neg hc] at hb ⊢
    cases hp : jsParseInt part with
    | none =>
      rw [hp] at hb
      simp only [Option.map_none'] at hb
    | some v =>
      rw [hp] at hb
      simp only [Option.map_some'] at hb
      try dsimp only
      rw [if_pos (by omega)]
      exact ⟨_, rfl⟩

theorem parseRangeParts_error_of_bad (totalPages : Nat)
    (parts : List (List Char))
    (hbad : ∃ part ∈ parts, badPart totalPages part) :
    ∃ msg, parseRangeParts totalPages parts = .error msg := by
  induction parts with
  | nil => obtain ⟨part, hmem, _⟩ := hbad; exact absurd hmem (by simp)
  | cons p ps ih =>
    obtain ⟨part, hmem, hviol⟩ := hbad
    rcases List.mem_cons.mp hmem with rfl | htail
    · obtain ⟨msg, hmsg⟩ :=
        parseRangePart_error_of_bad totalPages part hviol
      exact ⟨msg, by unfold parseRangeParts; rw [hmsg]⟩
    · cases hp : parseRangePart totalPages p with
      | error msg => exact ⟨msg, by unfold parseRangeParts; rw [hp]⟩
      | ok r =>
        obtain ⟨msg, hmsg⟩ := ih ⟨part, htail, hviol⟩
        exact ⟨msg, by unfold parseRangeParts; rw [hp, hmsg]⟩

/-- C9. `parsePageRanges` raises a validation error (producing no ranges,
hence zero output artifacts) whenever any comma-separated part denotes a
range with `start < 1`, `end > totalPages`, or `start > end`. -/
theorem C9_parsePageRanges_rejects_bad_ranges (input : List Char)
    (totalPages : Nat)
    (hbad : ∃ part ∈ ((splitOnChar ',' input).map jsTrim).filter
        (fun p => ¬p.isEmpty),
      badPart totalPages part) :
    ∃ msg, parsePageRanges input totalPages = .error msg :=
  parseRangeParts_error_of_bad totalPages _ hbad

/-- C9 witness: the range strings `5-2` (start > end, any total) and
`0-3` (start < 1, total 3) are both rejected. -/
theorem C9_witness :
    ((∃ part ∈ ((splitOnChar ',' ['5', '-', '2']).map jsTrim).filter
        (fun p => ¬p.isEmpty), badPart 10 part) ∧
      (∃ part ∈ ((splitOnChar ',' ['0', '-', '3']).map jsTrim).filter
        (fun p => ¬p.isEmpty), badPart 3 part)) ∧
    (∃ msg, parsePageRanges ['5', '-', '2'] 10 = .error msg) ∧
    (∃ msg, parsePageRanges ['0', '-', '3'] 3 = .error msg) :=
  ⟨⟨by decide, by decide⟩,
    C9_parsePageRanges_rejects_bad_ranges ['5', '-', '2'] 10 (by decide),
    C9_parsePageRanges_rejects_bad_ranges ['0', '-', '3'] 3 (by decide)⟩

/-! ## Claim C2: container header with metadata

The metadata-aware overload of `buildXtc` — called as
`buildXtc(processedPages, { metadata })` by the CBZ/CBR/PDF conversion
module — is not among the repository's sources; only its callers are.
Its layout is therefore modelled from the spec (s4.5): a 56-byte header
whose flags carry a fixed sentinel pattern and whose extra uint64 field
holds the absolute offset of the first TOC entry, followed by the
metadata block (128-byte title, 112-byte author, 16-byte TOC header,
96-byte TOC entries), the page index and the page data. -/

/-- Modelled from the spec: a TOC entry to be serialized — raw title
bytes plus the page range. -/
structure TocEntrySer where
  title : List Nat
  startPage : Nat
  endPage : Nat
  deriving Repr, DecidableEq

/-- Modelled from the spec: the fixed sentinel pattern of the two uint32
flag words of a metadata-carrying header.  The spec fixes the pattern but
not its value; any fixed nonzero bytes distinguish it from the all-zero
flags of the metadata-free header. -/
def metadataFlagBytes : List Nat := [1, 0, 0, 0, 1, 0, 0, 0]

/-- Modelled from the spec: a field of `n` bytes — the value truncated
to at most `n - 1` bytes, null-padded to exactly `n`. -/
def nullPadded (n : Nat) (bs : List Nat) : List Nat :=
  bs.take (n - 1) ++ List.replicate (n - (bs.take (n - 1)).length) 0

/-- Modelled from the spec: the 16-byte TOC header — uint32 timestamp
(zero here), 2 reserved bytes, uint16 chapter count, 8 bytes padding. -/
def tocHeaderBytes (chapterCount : Nat) : List Nat :=
  leBytes 4 0 ++ [0, 0] ++ leBytes 2 chapterCount ++ List.replicate 8 0

/-- Modelled from the spec: one 96-byte TOC entry — 80-byte null-padded
title, uint16 startPage, uint16 endPage, 12 bytes padding. -/
def tocEntrySerBytes (e : TocEntrySer) : List Nat :=
  nullPadded 80 e.title ++ leBytes 2 e.startPage ++ leBytes 2 e.endPage ++
    List.replicate 12 0

/-- Modelled from the spec: the metadata block — 128-byte null-padded
title, 112-byte null-padded author, TOC header, TOC entries. -/
def metadataBlockBytes (title author : List Nat)
    (toc : List TocEntrySer) : List Nat :=
  nullPadded 128 title ++ nullPadded 112 author ++
    tocHeaderBytes toc.length ++ (toc.map tocEntrySerBytes).flatten

/-- Modelled from the spec: the 56-byte header of a metadata-carrying
container — magic, uint16 version 1, uint16 pageCount, sentinel flags,
uint64 metadataOffset, uint64 indexOffset, uint64 dataOffset, uint64
reserved, uint64 offset of the first TOC entry. -/
def xtcHeaderBytesM (n mOff iOff dOff tOff : Nat) : List Nat :=
  [0x58, 0x54, 0x43, 0x00] ++ leBytes 2 1 ++ leBytes 2 n ++
    metadataFlagBytes ++ leBytes 8 mOff ++ leBytes 8 iOff ++
    leBytes 8 dOff ++ leBytes 8 0 ++ leBytes 8 tOff

/-- Modelled from the spec: the metadata-aware `buildXtc(pages,
{ metadata })`.  When neither a title nor an author nor a non-empty TOC
is supplied, the metadata-free builder is used (48-byte header); with
metadata, the 56-byte header is followed by the metadata block, the
index and the data. -/
def buildXtcWithMetadata (blobs : List (List Nat))
    (title author : List Nat) (toc : List TocEntrySer) : List Nat :=
  if title.isEmpty ∧ author.isEmpty ∧ toc.isEmpty then
    buildXtcFromRawPages blobs
  else
    let n := blobs.length
    let metadataOffset := 56
    let tocEntriesOffset := metadataOffset + 128 + 112 + 16
    let indexOffset := tocEntriesOffset + 96 * toc.length
    let dataOffset := indexOffset + 16 * n
    xtcHeaderBytesM n metadataOffset indexOffset dataOffset
        tocEntriesOffset ++
      metadataBlockBytes title author toc ++
      xtcIndexBytes blobs dataOffset ++ blobs.flatten

theorem length_nullPadded (n : Nat) (bs : List Nat) :
    (nullPadded n bs).length = n ∧ (bs.take (n - 1)).length ≤ n - 1 := by
  have h : (bs.take (n - 1)).length ≤ n - 1 := by
    simp [List.length_take]
  refine ⟨?_, h⟩
  simp only [nullPadded, List.length_append, List.length_replicate]
  omega

theorem length_tocHeaderBytes (c : Nat) : (tocHeaderBytes c).length = 16 := by
  simp [tocHeaderBytes, length_leBytes]

theorem length_tocEntrySerBytes (e : TocEntrySer) :
    (tocEntrySerBytes e).length = 96 := by
  simp only [tocEntrySerBytes, List.length_append, length_leBytes,
    List.length_replicate, (length_nullPadded 80 e.title).1]

theorem length_xtcHeaderBytesM (n mOff iOff dOff tOff : Nat) :
    (xtcHeaderBytesM n mOff iOff dOff tOff).length = 56 := by
  simp [xtcHeaderBytesM, length_leBytes, metadataFlagBytes]

/-- C2. With a title, an author or a non-empty TOC, the emitted header is
56 bytes: the flag bytes are the fixed sentinel pattern, and the extra
uint64 field at offset 48 holds 312, the absolute byte offset at which
the first TOC entry is actually laid out; without metadata the builder
emits the 48-byte header of `buildXtcFromRawPages`. -/
theorem C2_header_with_metadata (blobs : List (List Nat))
    (title author : List Nat) (toc : List TocEntrySer)
    (hmeta : ¬(title.isEmpty ∧ author.isEmpty ∧ toc.isEmpty)) :
    (xtcHeaderBytesM blobs.length 56 (312 + 96 * toc.length)
        (312 + 96 * toc.length + 16 * blobs.length) 312).length = 56 ∧
    ((buildXtcWithMetadata blobs title author toc).drop 8).take 8 =
      metadataFlagBytes ∧
    readLE (buildXtcWithMetadata blobs title author toc) 48 8 = 312 ∧
    (∀ e rest, toc = e :: rest →
      ((buildXtcWithMetadata blobs title author toc).drop 312).take 96 =
        tocEntrySerBytes e) ∧
    (buildXtcWithMetadata blobs [] [] [] = buildXtcFromRawPages blobs ∧
      ∃ tail, buildXtcFromRawPages blobs =
          xtcHeaderBytes blobs.length ++ tail ∧
        (xtcHeaderBytes blobs.length).length = 48) := by
  have hbuf : buildXtcWithMetadata blobs title author toc =
      xtcHeaderBytesM blobs.length 56 (312 + 96 * toc.length)
          (312 + 96 * toc.length + 16 * blobs.length) 312 ++
        metadataBlockBytes title author toc ++
        xtcIndexBytes blobs (312 + 96 * toc.length + 16 * blobs.length) ++
        blobs.flatten := by
    unfold buildXtcWithMetadata
    rw [if_neg hmeta]
  refine ⟨length_xtcHeaderBytesM _ _ _ _ _, ?_, ?_, ?_, ?_, ?_⟩
  · -- the sentinel flag bytes sit at offsets 8..15
    rw [hbuf]
    have hshape : xtcHeaderBytesM blobs.length 56 (312 + 96 * toc.length)
          (312 + 96 * toc.length + 16 * blobs.length) 312 ++
        metadataBlockBytes title author toc ++
        xtcIndexBytes blobs (312 + 96 * toc.length + 16 * blobs.length) ++
        blobs.flatten =
        ([0x58, 0x54, 0x43, 0x00] ++ leBytes 2 1 ++
            leBytes 2 blobs.length) ++ metadataFlagBytes ++
          (leBytes 8 56 ++ leBytes 8 (312 + 96 * toc.length) ++
            leBytes 8 (312 + 96 * toc.length + 16 * blobs.length) ++
            leBytes 8 0 ++ leBytes 8 312 ++
            (metadataBlockBytes title author toc ++
              xtcIndexBytes blobs
                (312 + 96 * toc.length + 16 * blobs.length) ++
              blobs.flatten)) := by
      simp [xtcHeaderBytesM, List.append_assoc]
    rw [hshape]
    have hlen8 : ([0x58, 0x54, 0x43, 0x00] ++ leBytes 2 1 ++
        leBytes 2 blobs.length).length = 8 := by
      simp [length_leBytes]
    have := slice_append
      ([0x58, 0x54, 0x43, 0x00] ++ leBytes 2 1 ++ leBytes 2 blobs.length)
      metadataFlagBytes
      (leBytes 8 56 ++ leBytes 8 (312 + 96 * toc.length) ++
        leBytes 8 (312 + 96 * toc.length + 16 * blobs.length) ++
        leBytes 8 0 ++ leBytes 8 312 ++
        (metadataBlockBytes title author toc ++
          xtcIndexBytes blobs (312 + 96 * toc.length + 16 * blobs.length) ++
          blobs.flatten))
    rw [hlen8] at this
    exact this
  · -- the extra uint64 field at offset 48 reads 312
    rw [hbuf]
    have hshape : xtcHeaderBytesM blobs.length 56 (312 + 96 * toc.length)
          (312 + 96 * toc.length + 16 * blobs.length) 312 ++
        metadataBlockBytes title author toc ++
        xtcIndexBytes blobs (312 + 96 * toc.length + 16 * blobs.length) ++
        blobs.flatten =
        ([0x58, 0x54, 0x43, 0x00] ++ leBytes 2 1 ++
            leBytes 2 blobs.length ++ metadataFlagBytes ++
            leBytes 8 56 ++ leBytes 8 (312 + 96 * toc.length) ++
            leBytes 8 (312 + 96 * toc.length + 16 * blobs.length) ++
            leBytes 8 0) ++ leBytes 8 312 ++
          (metadataBlockBytes title author toc ++
            xtcIndexBytes blobs
              (312 + 96 * toc.length + 16 * blobs.length) ++
            blobs.flatten) := by
      simp [xtcHeaderBytesM, List.append_assoc]
    rw [hshape, readLE_at _ _ _ _ _ (by
      simp [length_leBytes, metadataFlagBytes])]
    norm_num
  · -- 312 is where the first TOC entry is laid out
    intro e rest htoc
    rw [hbuf]
    have hshape : xtcHeaderBytesM blobs.length 56 (312 + 96 * toc.length)
          (312 + 96 * toc.length + 16 * blobs.length) 312 ++
        metadataBlockBytes title author toc ++
        xtcIndexBytes blobs (312 + 96 * toc.length + 16 * blobs.length) ++
        blobs.flatten =
        (xtcHeaderBytesM blobs.length 56 (312 + 96 * toc.length)
            (312 + 96 * toc.length + 16 * blobs.length) 312 ++
          nullPadded 128 title ++ nullPadded 112 author ++
          tocHeaderBytes toc.length) ++ tocEntrySerBytes e ++
          ((rest.map tocEntrySerBytes).flatten ++
            xtcIndexBytes blobs
              (312 + 96 * toc.length + 16 * blobs.length) ++
            blobs.flatten) := by
      rw [htoc]
      simp [metadataBlockBytes, List.append_assoc]
    have hClen : (xtcHeaderBytesM blobs.length 56 (312 + 96 * toc.length)
          (312 + 96 * toc.length + 16 * blobs.length) 312 ++
        nullPadded 128 title ++ nullPadded 112 author ++
        tocHeaderBytes toc.length).length = 312 := by
      simp only [List.length_append, length_xtcHeaderBytesM,
        (length_nullPadded 128 title).1, (length_nullPadded 112 author).1,
        length_tocHeaderBytes]
    have hsl := slice_append
      (xtcHeaderBytesM blobs.length 56 (312 + 96 * toc.length)
          (312 + 96 * toc.length + 16 * blobs.length) 312 ++
        nullPadded 128 title ++ nullPadded 112 author ++
        tocHeaderBytes toc.length)
      (tocEntrySerBytes e)
      ((rest.map tocEntrySerBytes).flatten ++
        xtcIndexBytes blobs (312 + 96 * toc.length + 16 * blobs.length) ++
        blobs.flatten)
    rw [hClen, length_tocEntrySerBytes] at hsl
    rw [hshape]
    exact hsl
  · unfold buildXtcWithMetadata
    rw [if_pos ⟨rfl, rfl, rfl⟩]
  · exact ⟨xtcIndexBytes blobs (48 + 16 * blobs.length) ++ blobs.flatten,
      by simp [buildXtcFromRawPages, List.append_assoc],
      length_xtcHeaderBytes blobs.length⟩

/-- C2 witness: one page, title byte `H`, one TOC chapter — sentinel
flags at offsets 8..15, the uint64 at offset 48 reads 312, and byte 312
starts the first TOC entry. -/
theorem C2_witness :
    (¬(([72] : List Nat).isEmpty ∧ ([] : List Nat).isEmpty ∧
      ([⟨[65], 1, 2⟩] : List TocEntrySer).isEmpty)) ∧
    ((buildXtcWithMetadata [[9]] [72] [] [⟨[65], 1, 2⟩]).drop 8).take 8 =
      metadataFlagBytes ∧
    readLE (buildXtcWithMetadata [[9]] [72] [] [⟨[65], 1, 2⟩]) 48 8 = 312 ∧
    ((buildXtcWithMetadata [[9]] [72] [] [⟨[65], 1, 2⟩]).drop 312).take 96 =
      tocEntrySerBytes ⟨[65], 1, 2⟩ :=
  ⟨by decide,
    (C2_header_with_metadata [[9]] [72] [] [⟨[65], 1, 2⟩] (by decide)).2.1,
    (C2_header_with_metadata [[9]] [72] [] [⟨[65], 1, 2⟩]
      (by decide)).2.2.1,
    (C2_header_with_metadata [[9]] [72] [] [⟨[65], 1, 2⟩]
      (by decide)).2.2.2.1 ⟨[65], 1, 2⟩ [] rfl⟩

end Xtcjs
